import Mathlib

/-!
Verification of the pedestrian-simulation core (Moussaid et al. 2011 replica).

Shallow embedding over the reals of the TypeScript sources:
  src/utils/vector.ts, src/utils/geometry.ts, src/simulation/types.ts,
  src/simulation/vision.ts, src/simulation/heuristics.ts,
  src/simulation/physics.ts, src/simulation/simulation.ts,
  src/simulation/environment.ts, src/simulation/pedestrian.ts.

JavaScript numbers are modelled as real numbers; `Math.random()` draws are
modelled by an explicit stream of reals consumed left to right, with a cursor
that advances exactly when the source calls the generator.  `Infinity`
sentinels are modelled by `Option` (with `none` standing for infinity).
-/

namespace PedSim

noncomputable section

/-! ## 2D vectors (src/utils/vector.ts) -/

@[ext]
structure Vec2 where
  x : ℝ
  y : ℝ

namespace Vec2

def add (a b : Vec2) : Vec2 := ⟨a.x + b.x, a.y + b.y⟩

def sub (a b : Vec2) : Vec2 := ⟨a.x - b.x, a.y - b.y⟩

def scale (v : Vec2) (s : ℝ) : Vec2 := ⟨v.x * s, v.y * s⟩

def dot (a b : Vec2) : ℝ := a.x * b.x + a.y * b.y

def length (v : Vec2) : ℝ := Real.sqrt (v.x * v.x + v.y * v.y)

def distance (a b : Vec2) : ℝ := length (sub a b)

def normalize (v : Vec2) : Vec2 :=
  let len := length v
  if len > 1e-10 then scale v (1 / len) else ⟨0, 0⟩

/-- `vec2.angle` is `Math.atan2(v.y, v.x)`, i.e. the argument of the complex
number `v.x + v.y i`. -/
def angle (v : Vec2) : ℝ := Complex.arg ⟨v.x, v.y⟩

def fromAngle (angle : ℝ) (magnitude : ℝ) : Vec2 :=
  ⟨Real.cos angle * magnitude, Real.sin angle * magnitude⟩

def zeroVec : Vec2 := ⟨0, 0⟩

end Vec2

instance : Inhabited Vec2 := ⟨Vec2.zeroVec⟩

/-! ## Geometry utilities (src/utils/geometry.ts) -/

structure LineEquation where
  a : ℝ
  b : ℝ
  c : ℝ

def lineFromPoints (p1 p2 : Vec2) : LineEquation :=
  let dx := p2.x - p1.x
  let dy := p2.y - p1.y
  let a := -dy
  let b := dx
  let c := -(a * p1.x + b * p1.y)
  let len := Real.sqrt (a * a + b * b)
  if len < 1e-10 then ⟨0, 0, 0⟩ else ⟨a / len, b / len, c / len⟩

def closestPointOnSegment (point segStart segEnd : Vec2) : Vec2 :=
  let seg := Vec2.sub segEnd segStart
  let segLenSq := seg.x * seg.x + seg.y * seg.y
  if segLenSq < 1e-10 then segStart
  else
    let toPoint := Vec2.sub point segStart
    let t := max 0 (min 1 (Vec2.dot toPoint seg / segLenSq))
    Vec2.add segStart (Vec2.scale seg t)

def distanceToSegment (point segStart segEnd : Vec2) : ℝ :=
  Vec2.distance point (closestPointOnSegment point segStart segEnd)

def normalFromSegmentToPoint (point segStart segEnd : Vec2) : Vec2 :=
  let closest := closestPointOnSegment point segStart segEnd
  let toPoint := Vec2.sub point closest
  let len := Vec2.length toPoint
  if len < 1e-10 then
    let seg := Vec2.sub segEnd segStart
    Vec2.normalize ⟨-seg.y, seg.x⟩
  else Vec2.scale toPoint (1 / len)

/-- `wrapValue` is a while-loop adding/subtracting `range` until the result
lands in `[min, max)`; for `range > 0` that loop computes the unique
representative of `value` modulo `range` in `[min, max)`, which is the closed
form used here. -/
def wrapValue (value mn mx : ℝ) : ℝ :=
  let range := mx - mn
  if range ≤ 0 then value
  else value - range * ⌊(value - mn) / range⌋

structure Bounds where
  xMin : ℝ
  xMax : ℝ
  yMin : ℝ
  yMax : ℝ

def wrapPosition (position : Vec2) (bounds : Bounds) : Vec2 :=
  ⟨wrapValue position.x bounds.xMin bounds.xMax,
   wrapValue position.y bounds.yMin bounds.yMax⟩

def periodicDisplacement (src dst : Vec2) (bounds : Bounds) : Vec2 :=
  let rangeX := bounds.xMax - bounds.xMin
  let rangeY := bounds.yMax - bounds.yMin
  let dx := dst.x - src.x
  let dy := dst.y - src.y
  let dx' := if dx > rangeX / 2 then dx - rangeX
             else if dx < -(rangeX / 2) then dx + rangeX else dx
  let dy' := if dy > rangeY / 2 then dy - rangeY
             else if dy < -(rangeY / 2) then dy + rangeY else dy
  ⟨dx', dy'⟩

/-- Box-Muller sampler; `u1` and `u2` are the two `Math.random()` draws. -/
def randomNormal (mean std u1 u2 : ℝ) : ℝ :=
  mean + std * (Real.sqrt (-2 * Real.log u1) * Real.cos (2 * Real.pi * u2))

/-! ## Entities (src/simulation/types.ts) -/

structure Pedestrian where
  id : ℕ
  position : Vec2
  velocity : Vec2
  mass : ℝ
  radius : ℝ
  desiredSpeed : ℝ
  destination : Vec2
  direction : ℝ
  active : Bool

instance : Inhabited Pedestrian :=
  ⟨⟨0, Vec2.zeroVec, Vec2.zeroVec, 0, 0, 0, Vec2.zeroVec, 0, false⟩⟩

structure Wall where
  start : Vec2
  endp : Vec2
  a : ℝ
  b : ℝ
  c : ℝ
  normal : Vec2

inductive BoundaryType where
  | closed
  | periodic
  | openB
deriving DecidableEq

structure Environment where
  walls : List Wall
  boundaryType : BoundaryType
  bounds : Bounds

structure SimulationParams where
  tau : ℝ
  phi : ℝ
  dMax : ℝ
  k : ℝ
  dt : ℝ
  angularResolution : ℝ

def defaultParams : SimulationParams :=
  ⟨0.5, 75 * Real.pi / 180, 10.0, 5000, 0.02, 1 * Real.pi / 180⟩

structure VisionResult where
  angles : List ℝ
  distances : List ℝ

structure DirectionResult where
  alphaDes : ℝ
  distanceToObstacle : ℝ

/-! ## Vision (src/simulation/vision.ts) -/

def collisionDistancePedestrian (pi' pj : Pedestrian) (vCandidate : Vec2)
    (dMax : ℝ) : ℝ :=
  let dx := pj.position.x - pi'.position.x
  let dy := pj.position.y - pi'.position.y
  let dvx := pj.velocity.x - vCandidate.x
  let dvy := pj.velocity.y - vCandidate.y
  let currentDistSq := dx * dx + dy * dy
  let combinedRadius := pi'.radius + pj.radius
  if currentDistSq ≤ combinedRadius * combinedRadius then
    let toOther := Vec2.normalize ⟨dx, dy⟩
    let candidateDir := Vec2.normalize vCandidate
    if Vec2.dot candidateDir toOther > 0 then 0 else dMax
  else
    let A := dvx * dvx + dvy * dvy
    let B := 2 * (dvx * dx + dvy * dy)
    let C := dx * dx + dy * dy - combinedRadius * combinedRadius
    if A < 1e-10 then (if C ≤ 0 then 0 else dMax)
    else
      let discriminant := B * B - 4 * A * C
      if discriminant < 0 then dMax
      else
        let sqrtDisc := Real.sqrt discriminant
        let t1 := (-B - sqrtDisc) / (2 * A)
        let t2 := (-B + sqrtDisc) / (2 * A)
        let tCollision : Option ℝ :=
          if t1 > 1e-6 then some t1 else if t2 > 1e-6 then some t2 else none
        match tCollision with
        | none => dMax
        | some t => min (Vec2.length vCandidate * t) dMax

def collisionDistanceWall (ped : Pedestrian) (wall : Wall) (vCandidate : Vec2)
    (dMax : ℝ) : ℝ :=
  let speed := Vec2.length vCandidate
  if speed < 1e-10 then dMax
  else
    let vDir := Vec2.normalize vCandidate
    let segDir := Vec2.sub wall.endp wall.start
    let segLen := Vec2.length segDir
    if segLen < 1e-10 then dMax
    else
      let toStart := Vec2.sub wall.start ped.position
      let cross := vDir.x * segDir.y - vDir.y * segDir.x
      if |cross| < 1e-10 then
        let dist := distanceToSegment ped.position wall.start wall.endp
        if dist ≤ ped.radius then
          let perpDist := wall.a * ped.position.x + wall.b * ped.position.y + wall.c
          if perpDist * (wall.a * vCandidate.x + wall.b * vCandidate.y) < 0 then 0
          else dMax
        else dMax
      else
        let t := (toStart.x * segDir.y - toStart.y * segDir.x) / cross
        let s := (toStart.x * vDir.y - toStart.y * vDir.x) / cross
        if t < 0 ∨ s < 0 ∨ s > segLen then
          if Vec2.distance ped.position wall.start ≤ ped.radius ∨
             Vec2.distance ped.position wall.endp ≤ ped.radius then 0
          else dMax
        else min (max 0 (t * speed - ped.radius)) dMax

/-- The per-angle body of the `computeVision` loop: starting from `dMax`, take
the running minimum over all other active pedestrians (with the nearest torus
image substituted under periodic boundaries) and then over all walls. -/
def visionDistance (pedestrian : Pedestrian) (others : List Pedestrian)
    (walls : List Wall) (params : SimulationParams) (bounds : Option Bounds)
    (periodic : Bool) (absDirection : ℝ) : ℝ :=
  let vCandidate := Vec2.fromAngle absDirection pedestrian.desiredSpeed
  let afterPeds := others.foldl
    (fun minDist other =>
      if other.id = pedestrian.id ∨ other.active = false then minDist
      else
        let otherPos :=
          match periodic, bounds with
          | true, some b =>
            Vec2.add pedestrian.position
              (periodicDisplacement pedestrian.position other.position b)
          | _, _ => other.position
        min minDist
          (collisionDistancePedestrian pedestrian { other with position := otherPos }
            vCandidate params.dMax))
    params.dMax
  walls.foldl
    (fun minDist wall =>
      min minDist (collisionDistanceWall pedestrian wall vCandidate params.dMax))
    afterPeds

def computeVision (pedestrian : Pedestrian) (others : List Pedestrian)
    (walls : List Wall) (params : SimulationParams) (bounds : Option Bounds)
    (periodic : Bool) (heading : Option ℝ) : VisionResult :=
  let actualHeading :=
    heading.getD (Vec2.angle (Vec2.sub pedestrian.destination pedestrian.position))
  let numSteps := (⌈2 * params.phi / params.angularResolution⌉ + 1).toNat
  let angles := (List.range numSteps).map
    (fun (i : ℕ) => -params.phi + (i : ℝ) * params.angularResolution)
  ⟨angles,
   angles.map (fun alpha =>
     visionDistance pedestrian others walls params bounds periodic
       (actualHeading + alpha))⟩

/-! ## Heuristics (src/simulation/heuristics.ts) -/

/-- The cost minimised by heuristic 1; `alpha0 = 0` in the source. -/
def dCost (dMax alpha f : ℝ) : ℝ :=
  dMax * dMax + f * f - 2 * dMax * f * Real.cos (0 - alpha)

/-- The scan of `selectDirection`: `minCost` starts at `Infinity` (modelled by
`none`), and a strict `<` comparison updates the best index, so the first
minimum encountered wins.  Returns the final best index. -/
def selectLoop (dMax : ℝ) : List (ℝ × ℝ) → Option ℝ → ℕ → ℕ → ℕ
  | [], _, _, bestIdx => bestIdx
  | (alpha, f) :: rest, minCost, i, bestIdx =>
    let cost := dCost dMax alpha f
    match minCost with
    | none => selectLoop dMax rest (some cost) (i + 1) i
    | some m =>
      if cost < m then selectLoop dMax rest (some cost) (i + 1) i
      else selectLoop dMax rest (some m) (i + 1) bestIdx

def selectDirection (angles distances : List ℝ) (params : SimulationParams) :
    DirectionResult :=
  let bestIdx := selectLoop params.dMax (angles.zip distances) none 0 0
  ⟨angles.getD bestIdx 0, distances.getD bestIdx 0⟩

/-- Cost of the `j`-th scanned `(angle, distance)` pair (used to specify the
argmin behaviour of `selectDirection`). -/
def costAt (dMax : ℝ) (pairs : List (ℝ × ℝ)) (j : ℕ) : ℝ :=
  dCost dMax (pairs.getD j (0, 0)).1 (pairs.getD j (0, 0)).2

def selectSpeed (desiredSpeed distanceToObstacle tau : ℝ) : ℝ :=
  min desiredSpeed (distanceToObstacle / tau)

def computeDesiredVelocity (desiredSpeed : ℝ) (angles distances : List ℝ)
    (params : SimulationParams) : ℝ × ℝ :=
  let dir := selectDirection angles distances params
  (dir.alphaDes, selectSpeed desiredSpeed dir.distanceToObstacle params.tau)

/-! ## Contact forces (src/simulation/physics.ts)

The source initialises a zero force array and runs a double loop over indices
`i < j`, adding the pair force to `forces[i]` and subtracting it from
`forces[j]`, then a wall loop adding to `forces[i]`.  The loops are modelled
by structural recursion over the pedestrian list carrying the running index. -/

def contactDelta (periodic : Bool) (bounds : Option Bounds) (pi' pj : Pedestrian) :
    Vec2 :=
  match periodic, bounds with
  | true, some b => periodicDisplacement pj.position pi'.position b
  | _, _ => Vec2.sub pi'.position pj.position

/-- The contact normal: the unit vector between centres, with the `(1, 0)`
fallback when the two centres (almost) coincide. -/
def contactNormal (periodic : Bool) (bounds : Option Bounds) (pi' pj : Pedestrian) :
    Vec2 :=
  let delta := contactDelta periodic bounds pi' pj
  let dist := Vec2.length delta
  if dist > 1e-10 then Vec2.scale delta (1 / dist) else ⟨1, 0⟩

/-- The pair force `k * overlap` along the contact normal. -/
def pairForce (params : SimulationParams) (periodic : Bool)
    (bounds : Option Bounds) (pi' pj : Pedestrian) : Vec2 :=
  Vec2.scale (contactNormal periodic bounds pi' pj)
    (params.k *
      (pi'.radius + pj.radius - Vec2.length (contactDelta periodic bounds pi' pj)))

/-- `forces[i] += force; forces[j] -= force`. -/
def applyPairForce (forces : List Vec2) (i j : ℕ) (force : Vec2) : List Vec2 :=
  let forces1 := forces.set i (Vec2.add (forces.getD i Vec2.zeroVec) force)
  forces1.set j (Vec2.sub (forces1.getD j Vec2.zeroVec) force)

/-- Inner `j` loop of `computeContactForces`: `rest` is the sublist of
pedestrians at indices `j0, j0+1, ...`; the fold state carries the running
index `j` alongside the force array. -/
def pairForcesLoop (params : SimulationParams) (bounds : Option Bounds)
    (periodic : Bool) (pi' : Pedestrian) (i : ℕ) (rest : List Pedestrian)
    (j0 : ℕ) (forces : List Vec2) : List Vec2 :=
  (rest.foldl
    (fun (st : ℕ × List Vec2) pj =>
      (st.1 + 1,
        if pj.active then
          (if pi'.radius + pj.radius
              - Vec2.length (contactDelta periodic bounds pi' pj) > 0 then
            applyPairForce st.2 i st.1 (pairForce params periodic bounds pi' pj)
          else st.2)
        else st.2))
    (j0, forces)).2

/-- Wall loop of `computeContactForces` for pedestrian `i`. -/
def wallForcesLoop (params : SimulationParams) (pi' : Pedestrian) (i : ℕ)
    (walls : List Wall) (forces : List Vec2) : List Vec2 :=
  walls.foldl
    (fun fs wall =>
      let overlap := pi'.radius - distanceToSegment pi'.position wall.start wall.endp
      if overlap > 0 then
        fs.set i (Vec2.add (fs.getD i Vec2.zeroVec)
          (Vec2.scale (normalFromSegmentToPoint pi'.position wall.start wall.endp)
            (params.k * overlap)))
      else fs)
    forces

/-- Outer `i` loop of `computeContactForces`. -/
def contactOuterLoop (walls : List Wall) (params : SimulationParams)
    (bounds : Option Bounds) (periodic : Bool) :
    List Pedestrian → ℕ → List Vec2 → List Vec2
  | [], _, forces => forces
  | pi' :: rest, i, forces =>
    if pi'.active then
      contactOuterLoop walls params bounds periodic rest (i + 1)
        (wallForcesLoop params pi' i walls
          (pairForcesLoop params bounds periodic pi' i rest (i + 1) forces))
    else contactOuterLoop walls params bounds periodic rest (i + 1) forces

def computeContactForces (pedestrians : List Pedestrian) (walls : List Wall)
    (params : SimulationParams) (bounds : Option Bounds) (periodic : Bool) :
    List Vec2 :=
  contactOuterLoop walls params bounds periodic pedestrians 0
    (pedestrians.map fun _ => Vec2.zeroVec)

/-- Component-wise sum of a force list (used to state Newton's third law). -/
def vecListSum (l : List Vec2) : Vec2 :=
  ⟨(l.map Vec2.x).sum, (l.map Vec2.y).sum⟩

/-! ## Simulation orchestrator (src/simulation/simulation.ts) -/

/-- The heading computation at the top of the per-agent block in
`Simulation.step`. -/
def stepHeading (periodic : Bool) (ped : Pedestrian) : ℝ :=
  if periodic then (if ped.direction > 0 then 0 else Real.pi)
  else
    let toDestination := Vec2.sub ped.destination ped.position
    let dist := Vec2.length toDestination
    if dist > 0.1 then Vec2.angle toDestination
    else if Vec2.length ped.velocity > 0.01 then Vec2.angle ped.velocity
    else 0

/-- One pedestrian's update inside `Simulation.step`.  `population` is the
pedestrian array as it stands when this agent is processed: because the source
mutates the array in place, it contains post-step values for agents already
processed this step. -/
def agentUpdate (population : List Pedestrian) (walls : List Wall)
    (bounds : Bounds) (periodic : Bool) (params : SimulationParams)
    (ped : Pedestrian) (force : Vec2) : Pedestrian :=
  let heading := stepHeading periodic ped
  let vision := computeVision ped population walls params (some bounds) periodic
    (some heading)
  let des := computeDesiredVelocity ped.desiredSpeed vision.angles
    vision.distances params
  let vDes := Vec2.fromAngle (heading + des.1) des.2
  let relaxation := Vec2.scale (Vec2.sub vDes ped.velocity) (1 / params.tau)
  let contactAccel := Vec2.scale force (1 / ped.mass)
  let acceleration := Vec2.add relaxation contactAccel
  let velocity' := Vec2.add ped.velocity (Vec2.scale acceleration params.dt)
  let position' := Vec2.add ped.position (Vec2.scale velocity' params.dt)
  let position'' := if periodic then wrapPosition position' bounds else position'
  { ped with velocity := velocity', position := position'' }

/-- The pedestrian-array transformation of `Simulation.step`: contact forces
are computed once from the incoming array, then each active agent is updated
in place in list order. -/
def stepPedestrians (pedestrians : List Pedestrian) (env : Environment)
    (params : SimulationParams) : List Pedestrian :=
  let periodic := env.boundaryType = BoundaryType.periodic
  let forces := computeContactForces pedestrians env.walls params
    (some env.bounds) periodic
  (List.range pedestrians.length).foldl
    (fun st i =>
      let ped := st.getD i default
      if ped.active then
        st.set i
          (agentUpdate st env.walls env.bounds periodic params ped
            (forces.getD i Vec2.zeroVec))
      else st)
    pedestrians

structure Simulation where
  pedestrians : List Pedestrian
  environment : Environment
  params : SimulationParams
  time : ℝ

def Simulation.step (sim : Simulation) : Simulation :=
  { sim with
    pedestrians := stepPedestrians sim.pedestrians sim.environment sim.params,
    time := sim.time + sim.params.dt }

/-- `Partial<SimulationParams>` for the constructor. -/
structure PartialParams where
  tau : Option ℝ := none
  phi : Option ℝ := none
  dMax : Option ℝ := none
  k : Option ℝ := none
  dt : Option ℝ := none
  angularResolution : Option ℝ := none

def mergeParams (d : SimulationParams) (p : PartialParams) : SimulationParams :=
  ⟨p.tau.getD d.tau, p.phi.getD d.phi, p.dMax.getD d.dMax, p.k.getD d.k,
   p.dt.getD d.dt, p.angularResolution.getD d.angularResolution⟩

/-- The `Simulation` constructor: stores the environment and merges the given
partial params over the defaults; no validation is performed. -/
def mkSimulation (environment : Environment) (params : PartialParams) :
    Simulation :=
  ⟨[], environment, mergeParams defaultParams params, 0⟩

/-! ## Environment construction (src/simulation/environment.ts) -/

def createWall (start endp : Vec2) : Wall :=
  let line := lineFromPoints start endp
  ⟨start, endp, line.a, line.b, line.c, ⟨line.a, line.b⟩⟩

/-! ## Pedestrian creation (src/simulation/pedestrian.ts)

`Math.random()` draws are modelled by the stream `σ`; each function takes the
stream and a cursor `k` and returns the advanced cursor.  The module-level id
counter is modelled by the explicit `nextId` argument. -/

structure PedestrianOptions where
  position : Vec2
  destination : Vec2
  mass : Option ℝ := none
  desiredSpeed : Option ℝ := none
  velocity : Option Vec2 := none
  direction : Option ℝ := none

def createPedestrian (options : PedestrianOptions) (σ : ℕ → ℝ) (k : ℕ)
    (nextId : ℕ) : Pedestrian × ℕ × ℕ :=
  let massK : ℝ × ℕ :=
    match options.mass with
    | some m => (m, k)
    | none => (60 + σ k * 40, k + 1)
  let mass := massK.1
  let radius := mass / 320
  let speedK : ℝ × ℕ :=
    match options.desiredSpeed with
    | some v => (v, massK.2)
    | none =>
      (max 0.5 (randomNormal 1.3 0.2 (σ massK.2) (σ (massK.2 + 1))), massK.2 + 2)
  (⟨nextId, options.position, (options.velocity).getD Vec2.zeroVec, mass, radius,
    speedK.1, options.destination, (options.direction).getD 1, true⟩,
   speedK.2, nextId + 1)

structure AreaOptions where
  desiredSpeedMean : Option ℝ := none
  desiredSpeedStd : Option ℝ := none
  uniformMass : Option ℝ := none
  directionFn : Option (ℕ → ℝ) := none

/-- One iteration of the rejection-sampling loop of
`createPedestriansInArea`: draw a position and a mass for the overlap check,
reject if the candidate overlaps a previously placed agent (with the `0.05`
margin), otherwise draw a desired speed and create the pedestrian — note the
creation call passes `options.uniformMass` (possibly `none`), not the mass
used in the overlap check.  Returns the new cursor, id counter and list. -/
def areaAttempt (bounds : Bounds) (destinationFn : Vec2 → ℕ → Vec2)
    (options : AreaOptions) (σ : ℕ → ℝ) (k nid : ℕ) (acc : List Pedestrian) :
    ℕ × ℕ × List Pedestrian :=
  let position : Vec2 :=
    ⟨bounds.xMin + σ k * (bounds.xMax - bounds.xMin),
     bounds.yMin + σ (k + 1) * (bounds.yMax - bounds.yMin)⟩
  let massK : ℝ × ℕ :=
    match options.uniformMass with
    | some m => (m, k + 2)
    | none => (60 + σ (k + 2) * 40, k + 3)
  let radius := massK.1 / 320
  if ∃ other ∈ acc,
      Vec2.distance position other.position < radius + other.radius + 0.05 then
    (massK.2, nid, acc)
  else
    let mean := (options.desiredSpeedMean).getD 1.3
    let std :=
      match options.desiredSpeedMean with
      | some _ => (options.desiredSpeedStd).getD 0.2
      | none => 0.2
    let desiredSpeed :=
      max 0.5 (randomNormal mean std (σ massK.2) (σ (massK.2 + 1)))
    let created := createPedestrian
      ⟨position, destinationFn position acc.length, options.uniformMass,
       some desiredSpeed, none,
       some (((options.directionFn).getD (fun _ => 1)) acc.length)⟩
      σ (massK.2 + 2) nid
    (created.2.1, created.2.2, acc ++ [created.1])

/-- The rejection-sampling `while` loop of `createPedestriansInArea`; the fuel
argument counts the remaining allowed attempts (`count × 100` initially). -/
def areaLoop (count : ℕ) (bounds : Bounds) (destinationFn : Vec2 → ℕ → Vec2)
    (options : AreaOptions) (σ : ℕ → ℝ) :
    ℕ → ℕ → ℕ → List Pedestrian → List Pedestrian
  | 0, _, _, acc => acc
  | fuel + 1, k, nid, acc =>
    if acc.length < count then
      let r := areaAttempt bounds destinationFn options σ k nid acc
      areaLoop count bounds destinationFn options σ fuel r.1 r.2.1 r.2.2
    else acc

def createPedestriansInArea (count : ℕ) (bounds : Bounds)
    (destinationFn : Vec2 → ℕ → Vec2) (options : AreaOptions) (σ : ℕ → ℝ)
    (nextId : ℕ) : List Pedestrian :=
  areaLoop count bounds destinationFn options σ (count * 100) 0 nextId []

/-! ## Concrete instances used by the theorems below -/

def exBounds : Bounds := ⟨-10, 10, -10, 10⟩

def exEnv : Environment := ⟨[], BoundaryType.periodic, exBounds⟩

/-- Periodic corridor parameters with the full half-circle field of view
(`phi = pi`) sampled at resolution `pi`, so the sampled angles are exactly
`-pi, 0, pi`. -/
def exParams : SimulationParams := ⟨1 / 2, Real.pi, 10, 5000, 1 / 50, Real.pi⟩

/-- Agent walking in the `+x` direction from the origin. -/
def pA : Pedestrian := ⟨0, ⟨0, 0⟩, ⟨0, 0⟩, 160, 1 / 2, 1, ⟨9, 0⟩, 1, true⟩

/-- Agent walking in the `-x` direction, facing `pA` at distance `1.2`. -/
def pB : Pedestrian := ⟨1, ⟨6 / 5, 0⟩, ⟨0, 0⟩, 160, 1 / 2, 1, ⟨-9, 0⟩, -1, true⟩

/-- `pA` after one update against the pre-step state (velocity `0.016` in
`+x`). -/
def pA1 : Pedestrian :=
  ⟨0, ⟨1 / 3125, 0⟩, ⟨2 / 125, 0⟩, 160, 1 / 2, 1, ⟨9, 0⟩, 1, true⟩

/-- `pB` after one update against the pre-step state (velocity `0.016` in
`-x`). -/
def pB1 : Pedestrian :=
  ⟨1, ⟨3749 / 3125, 0⟩, ⟨-(2 / 125), 0⟩, 160, 1 / 2, 1, ⟨-9, 0⟩, -1, true⟩

/-- `pA` after one update against the list where `pB` has already been
advanced this step: the vision reads `pB`'s post-step state, so the outcome
differs from `pA1`. -/
def pA2 : Pedestrian :=
  ⟨0, ⟨624 / 1984375, 0⟩, ⟨1248 / 79375, 0⟩, 160, 1 / 2, 1, ⟨9, 0⟩, 1, true⟩

/-- Parameters whose angular resolution does not divide `2 * phi`. -/
def c6Params : SimulationParams := ⟨1 / 2, 1, 10, 5000, 1 / 50, 3⟩

/-- Random stream for the `createPedestriansInArea` run: places agent 0 at the
origin (all mass draws low) and agent 1 at `(1/2, 0)` whose overlap-check mass
draw is low but whose actual mass draw (inside `createPedestrian`) is high. -/
def sigmaC10 : ℕ → ℝ :=
  fun n => if n = 6 then 1 / 20 else if n = 11 then 9 / 10 else 0

def c10Bounds : Bounds := ⟨0, 10, 0, 10⟩

/-- First agent produced by the `sigmaC10` run: mass draw 0 twice, so mass 60
and radius `3/16`. -/
def c10p1 : Pedestrian :=
  ⟨0, ⟨0, 0⟩, ⟨0, 0⟩, 60, 3 / 16, 1.3, ⟨0, 0⟩, 1, true⟩

/-- Second agent produced by the `sigmaC10` run: its overlap check used mass
draw 0 (radius `3/16`), but `createPedestrian` re-sampled mass `96`, giving
actual radius `3/10`. -/
def c10p2 : Pedestrian :=
  ⟨1, ⟨1 / 2, 0⟩, ⟨0, 0⟩, 96, 3 / 10, 1.3, ⟨0, 0⟩, 1, true⟩

/-- Replace a pedestrian's destination, keeping every other field. -/
def setDest (p : Pedestrian) (d : Vec2) : Pedestrian := { p with destination := d }

/-- Replace a pedestrian's position by its nearest torus image relative to the
observer (the substitution the vision code performs under periodic
boundaries). -/
def nearestImage (observer : Pedestrian) (b : Bounds) (o : Pedestrian) :
    Pedestrian :=
  let p := Vec2.add observer.position
    (periodicDisplacement observer.position o.position b)
  { o with position := p }

end

/-! # Theorems -/

section Theorems

/-- Evaluation helper for square roots of perfect squares. -/
theorem sqrt_eval {a b : ℝ} (hb : 0 ≤ b) (h : b * b = a) : Real.sqrt a = b := by
  rw [← h, show b * b = b ^ 2 by ring]
  exact Real.sqrt_sq hb

/-- Claim C8: speed selection returns the minimum of the agent's desired speed
and the obstacle distance divided by the relaxation time; it equals the desired
speed when the quotient is at least the desired speed and the quotient
otherwise, and on the concrete inputs of scenario D it returns `0.8`. -/
theorem selectSpeed_spec :
    (∀ desiredSpeed distanceToObstacle tau : ℝ,
        0 ≤ desiredSpeed → 0 ≤ distanceToObstacle → 0 < tau →
        ((desiredSpeed ≤ distanceToObstacle / tau →
            selectSpeed desiredSpeed distanceToObstacle tau = desiredSpeed) ∧
          (distanceToObstacle / tau ≤ desiredSpeed →
            selectSpeed desiredSpeed distanceToObstacle tau
              = distanceToObstacle / tau)))
    ∧ selectSpeed 1.3 0.4 0.5 = 0.8 := by
  constructor
  · intro v f tau _ _ _
    exact ⟨fun h => min_eq_left h, fun h => min_eq_right h⟩
  · show min (1.3 : ℝ) (0.4 / 0.5) = 0.8
    norm_num

/-- Witness for C8: the hypotheses hold at scenario D's inputs and the
speed-cap branch applies. -/
theorem selectSpeed_spec_witness : selectSpeed 1.3 0.4 0.5 = 0.4 / 0.5 :=
  (selectSpeed_spec.1 1.3 0.4 0.5 (by norm_num) (by norm_num) (by norm_num)).2
    (by norm_num)

/-- Claim C7 (counterexample): constructing a `Simulation` with non-positive
`dt`, `tau`, `phi` and `dMax` succeeds and stores the invalid values, and
`createWall` accepts coincident endpoints, returning a degenerate wall whose
line coefficients and normal are all zero — nothing is rejected at
construction time. -/
theorem construction_accepts_invalid :
    (mkSimulation ⟨[], BoundaryType.closed, ⟨0, 1, 0, 1⟩⟩
        { tau := some (-2), phi := some (-3), dMax := some (-4),
          dt := some (-1) }).params.dt = -1
    ∧ (mkSimulation ⟨[], BoundaryType.closed, ⟨0, 1, 0, 1⟩⟩
        { tau := some (-2), phi := some (-3), dMax := some (-4),
          dt := some (-1) }).params.tau = -2
    ∧ createWall ⟨1, 2⟩ ⟨1, 2⟩ = ⟨⟨1, 2⟩, ⟨1, 2⟩, 0, 0, 0, ⟨0, 0⟩⟩ := by
  refine ⟨rfl, rfl, ?_⟩
  have hline : lineFromPoints ⟨1, 2⟩ ⟨1, 2⟩ = ⟨0, 0, 0⟩ := by
    simp only [lineFromPoints]
    norm_num
  simp [createWall, hline]

/-- Claim C7 (amended): the code performs no construction-time validation:
the `Simulation` constructor accepts arbitrary params, merely merging them
over the defaults, and `createWall` accepts a degenerate wall with coincident
endpoints, producing a wall whose line coefficients and normal are zero. -/
theorem construction_no_validation :
    (∀ (env : Environment) (pp : PartialParams),
        (mkSimulation env pp).params = mergeParams defaultParams pp ∧
        (mkSimulation env pp).environment = env ∧
        (mkSimulation env pp).pedestrians = []) ∧
    ∀ p : Vec2, createWall p p = ⟨p, p, 0, 0, 0, ⟨0, 0⟩⟩ := by
  refine ⟨fun env pp => ⟨rfl, rfl, rfl⟩, fun p => ?_⟩
  have hline : lineFromPoints p p = ⟨0, 0, 0⟩ := by
    simp only [lineFromPoints]
    norm_num
  simp [createWall, hline]

/-- Claim C9 (counterexample): a caller-supplied `desiredSpeed` of `0.1` is
stored unclamped, below the claimed `0.5` floor. -/
theorem createPedestrian_no_clamp :
    (createPedestrian ⟨⟨0, 0⟩, ⟨1, 0⟩, some 80, some 0.1, none, none⟩
        (fun _ => 0) 0 0).1.desiredSpeed = 0.1
    ∧ ¬ (0.5 : ℝ) ≤ 0.1 := by
  exact ⟨rfl, by norm_num⟩

/-- Claim C9 (amended): the `max 0.5` clamp applies only when `desiredSpeed`
is omitted (the defaulted draw is clamped to at least `0.5`); an explicitly
supplied `desiredSpeed` is stored as-is, unclamped. -/
theorem createPedestrian_desiredSpeed :
    ∀ (opts : PedestrianOptions) (σ : ℕ → ℝ) (k nid : ℕ),
      (∀ v, opts.desiredSpeed = some v →
          (createPedestrian opts σ k nid).1.desiredSpeed = v) ∧
      (opts.desiredSpeed = none →
          0.5 ≤ (createPedestrian opts σ k nid).1.desiredSpeed) := by
  intro opts σ k nid
  constructor
  · intro v hv
    simp [createPedestrian, hv]
  · intro hv
    simp only [createPedestrian, hv]
    exact le_max_left _ _

/-- Witness for C9 (amended): with `desiredSpeed` omitted the stored value is
at least `0.5`. -/
theorem createPedestrian_desiredSpeed_witness :
    (0.5 : ℝ) ≤ (createPedestrian ⟨⟨0, 0⟩, ⟨1, 0⟩, some 80, none, none, none⟩
        (fun _ => 0) 0 0).1.desiredSpeed :=
  (createPedestrian_desiredSpeed ⟨⟨0, 0⟩, ⟨1, 0⟩, some 80, none, none, none⟩
      (fun _ => 0) 0 0).2 rfl

/-- Helper: reading the `i`-th element of a mapped range. -/
theorem range_map_getD (f : ℕ → ℝ) (n i : ℕ) (h : i < n) :
    ((List.range n).map f).getD i 0 = f i := by
  rw [List.getD_eq_getElem?_getD]
  simp [List.getElem?_map, List.getElem?_range h]

/-- Claim C6 (counterexample): with `phi = 1` and `angularResolution = 3`
(which does not divide `2 * phi`), the sampled angle list is `[-1, 2]`, whose
last element `2` lies outside `[-phi, phi] = [-1, 1]`. -/
theorem computeVision_angle_overshoot :
    (computeVision pA [] [] c6Params none false (some 0)).angles = [-1, 2]
    ∧ c6Params.phi = 1 ∧ ¬ ((2 : ℝ) ≤ 1) := by
  refine ⟨?_, rfl, by norm_num⟩
  have hceil : ⌈2 * (1 : ℝ) / 3⌉ = 1 := by
    rw [Int.ceil_eq_iff]
    norm_num
  show (List.range (⌈2 * c6Params.phi / c6Params.angularResolution⌉ + 1).toNat).map
      (fun (i : ℕ) => -c6Params.phi + (i : ℝ) * c6Params.angularResolution) = [-1, 2]
  rw [show c6Params.phi = 1 from rfl, show c6Params.angularResolution = 3 from rfl,
    hceil]
  show List.map _ [0, 1] = _
  simp only [List.map_cons, List.map_nil]
  norm_num

/-- Claim C6 (amended): the sampled angle list starts at `-phi`, consecutive
angles differ by exactly `angularResolution`, the angle and distance lists
have equal length, and every sampled angle lies in `[-phi, phi +
angularResolution)`; the last angle exceeds `phi` (by less than one
resolution step) whenever the resolution does not divide `2 * phi`. -/
theorem computeVision_sampling (ped : Pedestrian) (others : List Pedestrian)
    (walls : List Wall) (bounds : Option Bounds) (periodic : Bool)
    (heading : Option ℝ) (params : SimulationParams)
    (hphi : 0 < params.phi) (hres : 0 < params.angularResolution) :
    (computeVision ped others walls params bounds periodic heading).angles.getD 0 0
      = -params.phi
    ∧ (∀ i, i + 1
          < (computeVision ped others walls params bounds periodic heading).angles.length →
        (computeVision ped others walls params bounds periodic heading).angles.getD (i + 1) 0
          - (computeVision ped others walls params bounds periodic heading).angles.getD i 0
          = params.angularResolution)
    ∧ (computeVision ped others walls params bounds periodic heading).distances.length
        = (computeVision ped others walls params bounds periodic heading).angles.length
    ∧ ∀ a ∈ (computeVision ped others walls params bounds periodic heading).angles,
        -params.phi ≤ a ∧ a < params.phi + params.angularResolution := by
  set φ := params.phi with hφ
  set res := params.angularResolution with hresdef
  have hxpos : 0 < 2 * φ / res := by positivity
  have hceil1 : 1 ≤ ⌈2 * φ / res⌉ := Int.ceil_pos.mpr hxpos
  have hN : (⌈2 * φ / res⌉ + 1).toNat = (⌈2 * φ / res⌉ + 1) := by
    exact_mod_cast Int.toNat_of_nonneg (by omega)
  have hNpos : 0 < (⌈2 * φ / res⌉ + 1).toNat := by omega
  have hangles :
      (computeVision ped others walls params bounds periodic heading).angles
        = (List.range (⌈2 * φ / res⌉ + 1).toNat).map
            (fun (i : ℕ) => -φ + (i : ℝ) * res) := rfl
  have hlen :
      (computeVision ped others walls params bounds periodic heading).angles.length
        = (⌈2 * φ / res⌉ + 1).toNat := by
    rw [hangles, List.length_map, List.length_range]
  refine ⟨?_, ?_, ?_, ?_⟩
  · rw [hangles, range_map_getD _ _ 0 hNpos]
    norm_num
  · intro i hi
    rw [hlen] at hi
    rw [hangles, range_map_getD _ _ (i + 1) hi, range_map_getD _ _ i (by omega)]
    push_cast
    ring
  · show ((computeVision ped others walls params bounds periodic heading).angles.map
        _).length = _
    rw [List.length_map]
  · intro a ha
    rw [hangles, List.mem_map] at ha
    obtain ⟨i, hi, rfl⟩ := ha
    rw [List.mem_range] at hi
    constructor
    · have : (0 : ℝ) ≤ i * res := by positivity
      linarith
    · have hile : (i : ℤ) ≤ ⌈2 * φ / res⌉ := by omega
      have hile' : (i : ℝ) ≤ (⌈2 * φ / res⌉ : ℤ) := by exact_mod_cast hile
      have hceillt : ((⌈2 * φ / res⌉ : ℤ) : ℝ) < 2 * φ / res + 1 :=
        Int.ceil_lt_add_one _
      have hilt : (i : ℝ) < 2 * φ / res + 1 := lt_of_le_of_lt hile' hceillt
      have hmul : (i : ℝ) * res < (2 * φ / res + 1) * res :=
        mul_lt_mul_of_pos_right hilt hres
      have hdm : 2 * φ / res * res = 2 * φ := div_mul_cancel₀ _ (ne_of_gt hres)
      nlinarith [hmul, hdm]

/-- Witness for C6 (amended): at the concrete periodic parameters the first
sampled angle is `-phi`. -/
theorem computeVision_sampling_witness :
    (computeVision pA [pA, pB] [] exParams (some exBounds) true
        (some 0)).angles.getD 0 0 = -exParams.phi :=
  (computeVision_sampling pA [pA, pB] [] (some exBounds) true (some 0) exParams
      Real.pi_pos Real.pi_pos).1

theorem costAt_append_left (dMax : ℝ) (l l' : List (ℝ × ℝ)) (j : ℕ)
    (h : j < l.length) : costAt dMax (l ++ l') j = costAt dMax l j := by
  unfold costAt
  rw [List.getD_eq_getElem?_getD, List.getD_eq_getElem?_getD,
    List.getElem?_append_left h]

theorem costAt_append_self (dMax : ℝ) (l : List (ℝ × ℝ)) (p : ℝ × ℝ) :
    costAt dMax (l ++ [p]) l.length = dCost dMax p.1 p.2 := by
  unfold costAt
  rw [List.getD_eq_getElem?_getD]
  simp

/-- Invariant of the `selectDirection` scan: entering the loop with the
minimum and first-argmin of the processed prefix, it returns the first argmin
of the whole list. -/
theorem selectLoop_go (dMax : ℝ) :
    ∀ (rest done : List (ℝ × ℝ)) (m : ℝ) (b : ℕ),
      b < done.length →
      m = costAt dMax done b →
      (∀ j, j < done.length → m ≤ costAt dMax done j) →
      (∀ j, j < b → m < costAt dMax done j) →
      selectLoop dMax rest (some m) done.length b < (done ++ rest).length ∧
      (∀ j, j < (done ++ rest).length →
        costAt dMax (done ++ rest) (selectLoop dMax rest (some m) done.length b)
          ≤ costAt dMax (done ++ rest) j) ∧
      (∀ j, j < selectLoop dMax rest (some m) done.length b →
        costAt dMax (done ++ rest) (selectLoop dMax rest (some m) done.length b)
          < costAt dMax (done ++ rest) j) := by
  intro rest
  induction rest with
  | nil =>
    intro done m b hb hm hle hlt
    refine ⟨by simpa using hb, ?_, ?_⟩
    · intro j hj
      simp only [List.append_nil] at hj ⊢
      show costAt dMax done (selectLoop dMax [] (some m) done.length b) ≤ _
      show costAt dMax done b ≤ _
      exact hm ▸ hle j hj
    · intro j hj
      simp only [List.append_nil]
      show costAt dMax done b < _
      exact hm ▸ hlt j hj
  | cons p rest' ih =>
    intro done m b hb hm hle hlt
    have hassoc : done ++ p :: rest' = (done ++ [p]) ++ rest' := by
      simp
    obtain ⟨a, f⟩ := p
    have hunfold : selectLoop dMax ((a, f) :: rest') (some m) done.length b
        = if dCost dMax a f < m then
            selectLoop dMax rest' (some (dCost dMax a f)) (done.length + 1)
              done.length
          else selectLoop dMax rest' (some m) (done.length + 1) b := rfl
    rw [hunfold, hassoc]
    have hlen1 : done.length + 1 = (done ++ [(a, f)]).length := by simp
    by_cases hc : dCost dMax a f < m
    · rw [if_pos hc, hlen1]
      exact ih (done ++ [(a, f)]) (dCost dMax a f) done.length
        (by simp) (by rw [costAt_append_self])
        (by
          intro j hj
          simp only [List.length_append, List.length_singleton] at hj
          rcases Nat.lt_succ_iff_lt_or_eq.mp hj with hj' | rfl
          · rw [costAt_append_left dMax done [(a, f)] j hj']
            exact le_of_lt (lt_of_lt_of_le hc (hle j hj'))
          · rw [costAt_append_self])
        (by
          intro j hj
          rw [costAt_append_left dMax done [(a, f)] j hj]
          exact lt_of_lt_of_le hc (hle j hj))
    · rw [if_neg hc, hlen1]
      have hmle : m ≤ dCost dMax a f := le_of_not_lt hc
      exact ih (done ++ [(a, f)]) m b
        (by simp only [List.length_append, List.length_singleton]; omega)
        (by rw [costAt_append_left dMax done [(a, f)] b hb]; exact hm)
        (by
          intro j hj
          simp only [List.length_append, List.length_singleton] at hj
          rcases Nat.lt_succ_iff_lt_or_eq.mp hj with hj' | rfl
          · rw [costAt_append_left dMax done [(a, f)] j hj']
            exact hle j hj'
          · rw [costAt_append_self]
            exact hmle)
        (by
          intro j hj
          rw [costAt_append_left dMax done [(a, f)] j (lt_trans hj hb)]
          exact hlt j hj)

theorem zip_getD (as bs : List ℝ) (j : ℕ) (hj : j < as.length)
    (hlen : bs.length = as.length) :
    (as.zip bs).getD j (0, 0) = (as.getD j 0, bs.getD j 0) := by
  induction as generalizing bs j with
  | nil => simp at hj
  | cons a as' ih =>
    cases bs with
    | nil => simp at hlen
    | cons b bs' =>
      cases j with
      | zero => rfl
      | succ j' =>
        simp only [List.zip_cons_cons, List.getD_cons_succ]
        exact ih bs' j' (by simpa using hj) (by simpa using hlen)

/-- Claim C5: `selectDirection` returns a sampled angle minimising the cost
`d(alpha) = dMax^2 + f^2 - 2 dMax f cos(0 - alpha)`; the returned index is the
first minimiser in scan order (every earlier index has strictly larger cost),
so when the angle list is sorted ascending — as the vision sampling produces
it — any other minimiser has an angle at least as large. -/
theorem selectDirection_spec (angles distances : List ℝ)
    (params : SimulationParams) (hne : angles ≠ [])
    (hlen : distances.length = angles.length) :
    ∃ i, i < angles.length ∧
      (selectDirection angles distances params).alphaDes = angles.getD i 0 ∧
      (selectDirection angles distances params).distanceToObstacle
        = distances.getD i 0 ∧
      (∀ j, j < angles.length →
        dCost params.dMax (angles.getD i 0) (distances.getD i 0)
          ≤ dCost params.dMax (angles.getD j 0) (distances.getD j 0)) ∧
      (∀ j, j < i →
        dCost params.dMax (angles.getD i 0) (distances.getD i 0)
          < dCost params.dMax (angles.getD j 0) (distances.getD j 0)) ∧
      (List.Sorted (· ≤ ·) angles → ∀ j, j < angles.length →
        dCost params.dMax (angles.getD j 0) (distances.getD j 0)
          = dCost params.dMax (angles.getD i 0) (distances.getD i 0) →
        angles.getD i 0 ≤ angles.getD j 0) := by
  obtain ⟨a, as, rfl⟩ := List.exists_cons_of_ne_nil hne
  obtain ⟨b, bs, rfl⟩ := List.exists_cons_of_ne_nil
    (show distances ≠ [] by
      intro h
      rw [h] at hlen
      simp at hlen)
  have hlen' : bs.length = as.length := by simpa using hlen
  have hzlen : ((a :: as).zip (b :: bs)).length = (a :: as).length := by
    rw [List.length_zip, hlen]
    simp
  have hinv0 : ∀ j, j < ([(a, b)] : List (ℝ × ℝ)).length →
      dCost params.dMax a b ≤ costAt params.dMax [(a, b)] j := by
    intro j hj
    simp only [List.length_singleton] at hj
    have hj0 : j = 0 := by omega
    subst hj0
    simp [costAt]
  have hrun := selectLoop_go params.dMax (as.zip bs) [(a, b)]
    (dCost params.dMax a b) 0 (by simp) (by simp [costAt]) hinv0
    (by intro j hj; omega)
  simp only [List.length_singleton] at hrun
  set r := selectLoop params.dMax (as.zip bs) (some (dCost params.dMax a b)) 1 0
    with hr
  have hform : [(a, b)] ++ as.zip bs = (a :: as).zip (b :: bs) := by
    simp [List.zip_cons_cons]
  rw [hform] at hrun
  obtain ⟨hrlt, hrle, hrstrict⟩ := hrun
  have hrlt' : r < (a :: as).length := by rwa [hzlen] at hrlt
  have hsel : selectDirection (a :: as) (b :: bs) params
      = ⟨(a :: as).getD r 0, (b :: bs).getD r 0⟩ := by
    show (⟨(a :: as).getD (selectLoop params.dMax ((a :: as).zip (b :: bs)) none 0 0) 0,
      (b :: bs).getD (selectLoop params.dMax ((a :: as).zip (b :: bs)) none 0 0) 0⟩ :
        DirectionResult) = _
    have hstep : selectLoop params.dMax ((a :: as).zip (b :: bs)) none 0 0
        = selectLoop params.dMax (as.zip bs) (some (dCost params.dMax a b)) 1 0 := by
      rw [List.zip_cons_cons]
      rfl
    rw [hstep, ← hr]
  have hcost : ∀ j, j < (a :: as).length →
      costAt params.dMax ((a :: as).zip (b :: bs)) j
        = dCost params.dMax ((a :: as).getD j 0) ((b :: bs).getD j 0) := by
    intro j hj
    unfold costAt
    rw [zip_getD (a :: as) (b :: bs) j hj (by simpa using hlen)]
  refine ⟨r, hrlt', by rw [hsel], by rw [hsel], ?_, ?_, ?_⟩
  · intro j hj
    have := hrle j (by rwa [hzlen])
    rwa [hcost r hrlt', hcost j hj] at this
  · intro j hj
    have := hrstrict j hj
    rwa [hcost r hrlt', hcost j (lt_trans hj hrlt')] at this
  · intro hs j hj heq
    by_cases hji : j < r
    · exfalso
      have := hrstrict j hji
      rw [hcost r hrlt', hcost j (lt_trans hji hrlt')] at this
      rw [heq] at this
      exact lt_irrefl _ this
    · have hij : r ≤ j := le_of_not_lt hji
      rcases eq_or_lt_of_le hij with rfl | hltij
      · exact le_refl _
      · rw [List.getD_eq_getElem?_getD, List.getD_eq_getElem?_getD,
          List.getElem?_eq_getElem (lt_trans hltij hj), List.getElem?_eq_getElem hj]
        exact List.Sorted.rel_get_of_lt hs (by simpa using hltij)

/-- Witness for C5: a concrete tie — two angles `-1` and `1` with equal
distances have equal cost (cosine is even), and `selectDirection` picks an
index satisfying the first-minimum characterisation. -/
theorem selectDirection_spec_witness :
    ∃ i, i < ([-1, 1] : List ℝ).length ∧
      (selectDirection [-1, 1] [5, 5] exParams).alphaDes
        = ([-1, 1] : List ℝ).getD i 0 ∧
      (selectDirection [-1, 1] [5, 5] exParams).distanceToObstacle
        = ([5, 5] : List ℝ).getD i 0 ∧
      (∀ j, j < ([-1, 1] : List ℝ).length →
        dCost exParams.dMax (([-1, 1] : List ℝ).getD i 0)
            (([5, 5] : List ℝ).getD i 0)
          ≤ dCost exParams.dMax (([-1, 1] : List ℝ).getD j 0)
            (([5, 5] : List ℝ).getD j 0)) ∧
      (∀ j, j < i →
        dCost exParams.dMax (([-1, 1] : List ℝ).getD i 0)
            (([5, 5] : List ℝ).getD i 0)
          < dCost exParams.dMax (([-1, 1] : List ℝ).getD j 0)
            (([5, 5] : List ℝ).getD j 0)) ∧
      (List.Sorted (· ≤ ·) ([-1, 1] : List ℝ) → ∀ j, j < ([-1, 1] : List ℝ).length →
        dCost exParams.dMax (([-1, 1] : List ℝ).getD j 0)
            (([5, 5] : List ℝ).getD j 0)
          = dCost exParams.dMax (([-1, 1] : List ℝ).getD i 0)
            (([5, 5] : List ℝ).getD i 0) →
        ([-1, 1] : List ℝ).getD i 0 ≤ ([-1, 1] : List ℝ).getD j 0) :=
  selectDirection_spec [-1, 1] [5, 5] exParams (by simp) (by simp)

/-- Every pedestrian collision distance lies in `[0, dMax]`. -/
theorem collisionDistancePedestrian_bounds (pi' pj : Pedestrian) (v : Vec2)
    (dMax : ℝ) (h : 0 < dMax) :
    0 ≤ collisionDistancePedestrian pi' pj v dMax ∧
    collisionDistancePedestrian pi' pj v dMax ≤ dMax := by
  have hsp : 0 ≤ Vec2.length v := Real.sqrt_nonneg _
  simp only [collisionDistancePedestrian]
  split_ifs
  all_goals
    first
    | exact ⟨le_refl 0, h.le⟩
    | exact ⟨h.le, le_refl dMax⟩
    | exact ⟨le_min
        (mul_nonneg hsp (by linarith [show (0 : ℝ) < 1e-6 by norm_num])) h.le,
        min_le_right _ _⟩

/-- Every wall collision distance lies in `[0, dMax]`. -/
theorem collisionDistanceWall_bounds (ped : Pedestrian) (wall : Wall)
    (v : Vec2) (dMax : ℝ) (h : 0 < dMax) :
    0 ≤ collisionDistanceWall ped wall v dMax ∧
    collisionDistanceWall ped wall v dMax ≤ dMax := by
  simp only [collisionDistanceWall]
  split_ifs
  all_goals
    first
    | exact ⟨le_refl 0, h.le⟩
    | exact ⟨h.le, le_refl dMax⟩
    | exact ⟨le_min (le_max_left _ _) h.le, min_le_right _ _⟩

/-- A left fold whose step keeps its accumulator inside `[0, dMax]` stays
inside `[0, dMax]`. -/
theorem foldl_min_range {α : Type} (l : List α) (F : ℝ → α → ℝ) (dMax : ℝ)
    (hF : ∀ m a, 0 ≤ m → m ≤ dMax → 0 ≤ F m a ∧ F m a ≤ dMax) :
    ∀ m, 0 ≤ m → m ≤ dMax → 0 ≤ l.foldl F m ∧ l.foldl F m ≤ dMax := by
  induction l with
  | nil => intro m h0 h1; exact ⟨h0, h1⟩
  | cons a l' ih =>
    intro m h0 h1
    simp only [List.foldl_cons]
    exact ih (F m a) (hF m a h0 h1).1 (hF m a h0 h1).2

/-- Each per-angle vision distance lies in `[0, dMax]`. -/
theorem visionDistance_bounds (ped : Pedestrian) (others : List Pedestrian)
    (walls : List Wall) (params : SimulationParams) (bounds : Option Bounds)
    (periodic : Bool) (absDirection : ℝ) (h : 0 < params.dMax) :
    0 ≤ visionDistance ped others walls params bounds periodic absDirection ∧
    visionDistance ped others walls params bounds periodic absDirection
      ≤ params.dMax := by
  simp only [visionDistance]
  have hinner := foldl_min_range others
    (fun minDist other =>
      if other.id = ped.id ∨ other.active = false then minDist
      else
        min minDist
          (collisionDistancePedestrian ped
            { other with
              position :=
                match periodic, bounds with
                | true, some b =>
                  Vec2.add ped.position
                    (periodicDisplacement ped.position other.position b)
                | _, _ => other.position }
            (Vec2.fromAngle absDirection ped.desiredSpeed) params.dMax))
    params.dMax
    (fun m other hm0 hm1 => by
      dsimp only
      by_cases hs : other.id = ped.id ∨ other.active = false
      · rw [if_pos hs]
        exact ⟨hm0, hm1⟩
      · rw [if_neg hs]
        exact ⟨le_min hm0 (collisionDistancePedestrian_bounds _ _ _ _ h).1,
          le_trans (min_le_left _ _) hm1⟩)
    params.dMax h.le (le_refl _)
  exact foldl_min_range walls
    (fun minDist wall =>
      min minDist
        (collisionDistanceWall ped wall
          (Vec2.fromAngle absDirection ped.desiredSpeed) params.dMax))
    params.dMax
    (fun m wall hm0 hm1 =>
      ⟨le_min hm0 (collisionDistanceWall_bounds _ _ _ _ h).1,
        le_trans (min_le_left _ _) hm1⟩)
    _ hinner.1 hinner.2

/-- Claim C3: every per-angle vision distance lies in `[0, dMax]`: each
pedestrian and wall contribution is clamped to that interval and the running
minimum starts at `dMax`, so the minimum over all considered agents (the
observer and inactive agents excluded) and walls stays within it. -/
theorem computeVision_bounds (ped : Pedestrian) (others : List Pedestrian)
    (walls : List Wall) (params : SimulationParams) (bounds : Option Bounds)
    (periodic : Bool) (heading : Option ℝ) (h : 0 < params.dMax) :
    ∀ d ∈ (computeVision ped others walls params bounds periodic heading).distances,
      0 ≤ d ∧ d ≤ params.dMax := by
  intro d hd
  have hdist :
      (computeVision ped others walls params bounds periodic heading).distances
        = (computeVision ped others walls params bounds periodic heading).angles.map
            (fun alpha =>
              visionDistance ped others walls params bounds periodic
                ((heading.getD
                    (Vec2.angle (Vec2.sub ped.destination ped.position))) + alpha)) :=
    rfl
  rw [hdist, List.mem_map] at hd
  obtain ⟨alpha, _, rfl⟩ := hd
  exact visionDistance_bounds ped others walls params bounds periodic _ h

theorem sum_map_set (l : List Vec2) (f : Vec2 → ℝ) :
    ∀ (i : ℕ) (v : Vec2), i < l.length →
      ((l.set i v).map f).sum
        = (l.map f).sum - f (l.getD i Vec2.zeroVec) + f v := by
  induction l with
  | nil => intro i v hi; simp at hi
  | cons a l' ih =>
    intro i v hi
    cases i with
    | zero =>
      simp only [List.set_cons_zero, List.map_cons, List.sum_cons,
        List.getD_cons_zero]
      ring
    | succ i' =>
      simp only [List.set_cons_succ, List.map_cons, List.sum_cons,
        List.getD_cons_succ]
      rw [ih i' v (by simpa using hi)]
      ring

theorem getD_set_ne {α : Type} (l : List α) (i j : ℕ) (v d : α) (h : i ≠ j) :
    (l.set i v).getD j d = l.getD j d := by
  rw [List.getD_eq_getElem?_getD, List.getD_eq_getElem?_getD,
    List.getElem?_set_ne h]

/-- A single equal-and-opposite pair update leaves the total force sum
unchanged. -/
theorem applyPairForce_sum (forces : List Vec2) (i j : ℕ) (F : Vec2)
    (hi : i < forces.length) (hj : j < forces.length) (hij : i ≠ j) :
    vecListSum (applyPairForce forces i j F) = vecListSum forces := by
  show vecListSum
      ((forces.set i (Vec2.add (forces.getD i Vec2.zeroVec) F)).set j
        (Vec2.sub
          ((forces.set i (Vec2.add (forces.getD i Vec2.zeroVec) F)).getD j
            Vec2.zeroVec) F))
      = vecListSum forces
  set l1 := forces.set i (Vec2.add (forces.getD i Vec2.zeroVec) F) with hl1
  have hlen1 : l1.length = forces.length := by rw [hl1, List.length_set]
  have hj1 : j < l1.length := by rwa [hlen1]
  have hgd : l1.getD j Vec2.zeroVec = forces.getD j Vec2.zeroVec :=
    getD_set_ne forces i j _ _ hij
  have hx := sum_map_set l1 Vec2.x j
    (Vec2.sub (l1.getD j Vec2.zeroVec) F) hj1
  have hy := sum_map_set l1 Vec2.y j
    (Vec2.sub (l1.getD j Vec2.zeroVec) F) hj1
  have hx1 := sum_map_set forces Vec2.x i
    (Vec2.add (forces.getD i Vec2.zeroVec) F) hi
  have hy1 := sum_map_set forces Vec2.y i
    (Vec2.add (forces.getD i Vec2.zeroVec) F) hi
  simp only [vecListSum, Vec2.mk.injEq]
  constructor
  · rw [hx, hgd, hl1, hx1]
    simp only [Vec2.add, Vec2.sub]
    ring
  · rw [hy, hgd, hl1, hy1]
    simp only [Vec2.add, Vec2.sub]
    ring

/-- One-step unfolding of the inner pair loop. -/
theorem pairForcesLoop_cons (params : SimulationParams) (bounds : Option Bounds)
    (periodic : Bool) (pi' pj : Pedestrian) (i j0 : ℕ) (rest : List Pedestrian)
    (forces : List Vec2) :
    pairForcesLoop params bounds periodic pi' i (pj :: rest) j0 forces
      = pairForcesLoop params bounds periodic pi' i rest (j0 + 1)
          (if pj.active then
            (if pi'.radius + pj.radius
                - Vec2.length (contactDelta periodic bounds pi' pj) > 0 then
              applyPairForce forces i j0 (pairForce params periodic bounds pi' pj)
            else forces)
          else forces) := rfl

theorem applyPairForce_length (forces : List Vec2) (i j : ℕ) (F : Vec2) :
    (applyPairForce forces i j F).length = forces.length := by
  simp [applyPairForce, List.length_set]

theorem pairForcesLoop_length (params : SimulationParams)
    (bounds : Option Bounds) (periodic : Bool) (pi' : Pedestrian) (i : ℕ) :
    ∀ (rest : List Pedestrian) (j : ℕ) (forces : List Vec2),
      (pairForcesLoop params bounds periodic pi' i rest j forces).length
        = forces.length := by
  intro rest
  induction rest with
  | nil => intro j forces; rfl
  | cons pj rest' ih =>
    intro j forces
    rw [pairForcesLoop_cons, ih]
    split_ifs
    · rw [applyPairForce_length]
    · rfl
    · rfl

theorem pairForcesLoop_sum (params : SimulationParams) (bounds : Option Bounds)
    (periodic : Bool) (pi' : Pedestrian) (i : ℕ) :
    ∀ (rest : List Pedestrian) (j : ℕ) (forces : List Vec2),
      i < forces.length → i < j → j + rest.length ≤ forces.length →
      vecListSum (pairForcesLoop params bounds periodic pi' i rest j forces)
        = vecListSum forces := by
  intro rest
  induction rest with
  | nil => intro j forces _ _ _; rfl
  | cons pj rest' ih =>
    intro j forces hi hij hlen
    simp only [List.length_cons] at hlen
    have hj : j < forces.length := by omega
    rw [pairForcesLoop_cons]
    split_ifs with hact hover
    · rw [ih (j + 1) _ (by rw [applyPairForce_length]; exact hi) (by omega)
        (by rw [applyPairForce_length]; omega)]
      exact applyPairForce_sum forces i j _ hi hj (by omega)
    · exact ih (j + 1) forces hi (by omega) (by omega)
    · exact ih (j + 1) forces hi (by omega) (by omega)

theorem contactOuterLoop_sum (params : SimulationParams)
    (bounds : Option Bounds) (periodic : Bool) :
    ∀ (suffix : List Pedestrian) (i : ℕ) (forces : List Vec2),
      i + suffix.length ≤ forces.length →
      vecListSum (contactOuterLoop [] params bounds periodic suffix i forces)
        = vecListSum forces := by
  intro suffix
  induction suffix with
  | nil => intro i forces _; rfl
  | cons pi' rest ih =>
    intro i forces hlen
    simp only [List.length_cons] at hlen
    simp only [contactOuterLoop]
    split_ifs
    · show vecListSum (contactOuterLoop [] params bounds periodic rest (i + 1)
        (pairForcesLoop params bounds periodic pi' i rest (i + 1) forces)) = _
      rw [ih (i + 1) _
        (by rw [pairForcesLoop_length]; omega)]
      exact pairForcesLoop_sum params bounds periodic pi' i rest (i + 1) forces
        (by omega) (by omega) (by omega)
    · exact ih (i + 1) forces (by omega)

/-- One-step unfolding of the wall loop. -/
theorem wallForcesLoop_cons (params : SimulationParams) (pi' : Pedestrian)
    (i : ℕ) (w : Wall) (ws : List Wall) (forces : List Vec2) :
    wallForcesLoop params pi' i (w :: ws) forces
      = wallForcesLoop params pi' i ws
          (if pi'.radius - distanceToSegment pi'.position w.start w.endp > 0 then
            forces.set i (Vec2.add (forces.getD i Vec2.zeroVec)
              (Vec2.scale
                (normalFromSegmentToPoint pi'.position w.start w.endp)
                (params.k *
                  (pi'.radius - distanceToSegment pi'.position w.start w.endp))))
          else forces) := rfl

theorem wallForcesLoop_length (params : SimulationParams) :
    ∀ (ws : List Wall) (pi' : Pedestrian) (i : ℕ) (forces : List Vec2),
      (wallForcesLoop params pi' i ws forces).length = forces.length := by
  intro ws
  induction ws with
  | nil => intro pi' i forces; rfl
  | cons w ws' ih =>
    intro pi' i forces
    rw [wallForcesLoop_cons, ih]
    split_ifs
    · rw [List.length_set]
    · rfl

theorem contactOuterLoop_length (walls : List Wall) (params : SimulationParams)
    (bounds : Option Bounds) (periodic : Bool) :
    ∀ (suffix : List Pedestrian) (i : ℕ) (forces : List Vec2),
      (contactOuterLoop walls params bounds periodic suffix i forces).length
        = forces.length := by
  have hwall := wallForcesLoop_length params
  intro suffix
  induction suffix with
  | nil => intro i forces; rfl
  | cons pi' rest ih =>
    intro i forces
    simp only [contactOuterLoop]
    split_ifs
    · rw [ih, hwall, pairForcesLoop_length]
    · rw [ih]

theorem computeContactForces_length (peds : List Pedestrian) (walls : List Wall)
    (params : SimulationParams) (bounds : Option Bounds) (periodic : Bool) :
    (computeContactForces peds walls params bounds periodic).length
      = peds.length := by
  unfold computeContactForces
  rw [contactOuterLoop_length, List.length_map]

/-- Claim C4: Newton's third law for the contact model.  With no walls, the
pair loop only ever adds a force to one agent and subtracts the same vector
from the other, so the total internal force sums to the zero vector for every
population; in particular, for any two pedestrians the two force entries are
exactly opposite. -/
theorem computeContactForces_newton :
    (∀ (peds : List Pedestrian) (params : SimulationParams)
        (bounds : Option Bounds) (periodic : Bool),
      vecListSum (computeContactForces peds [] params bounds periodic)
        = Vec2.zeroVec) ∧
    ∀ (p q : Pedestrian) (params : SimulationParams) (bounds : Option Bounds)
        (periodic : Bool),
      Vec2.add ((computeContactForces [p, q] [] params bounds periodic).getD 0
          Vec2.zeroVec)
        ((computeContactForces [p, q] [] params bounds periodic).getD 1
          Vec2.zeroVec) = Vec2.zeroVec := by
  have hsum : ∀ (peds : List Pedestrian) (params : SimulationParams)
      (bounds : Option Bounds) (periodic : Bool),
      vecListSum (computeContactForces peds [] params bounds periodic)
        = Vec2.zeroVec := by
    intro peds params bounds periodic
    unfold computeContactForces
    rw [contactOuterLoop_sum params bounds periodic peds 0 _
      (by rw [List.length_map]; omega)]
    simp [vecListSum, Vec2.zeroVec, List.map_map, Function.comp]
  refine ⟨hsum, ?_⟩
  intro p q params bounds periodic
  have hlen : (computeContactForces [p, q] [] params bounds periodic).length = 2 :=
    computeContactForces_length [p, q] [] params bounds periodic
  obtain ⟨f0, f1, hf⟩ := List.length_eq_two.mp hlen
  have := hsum [p, q] params bounds periodic
  rw [hf] at this ⊢
  simp only [vecListSum, List.map_cons, List.map_nil, List.sum_cons,
    List.sum_nil, Vec2.zeroVec] at this
  simp only [List.getD_cons_zero, List.getD_cons_succ, Vec2.add, Vec2.zeroVec]
  have hx : f0.x + (f1.x + 0) = 0 := congrArg Vec2.x this
  have hy : f0.y + (f1.y + 0) = 0 := congrArg Vec2.y this
  ext <;> simp <;> linarith

theorem setDest_active (p : Pedestrian) (d : Vec2) :
    (setDest p d).active = p.active := rfl

theorem setDest_id (p : Pedestrian) (d : Vec2) : (setDest p d).id = p.id := rfl

theorem agentUpdate_id (st : List Pedestrian) (walls : List Wall)
    (bounds : Bounds) (periodic : Bool) (params : SimulationParams)
    (ped : Pedestrian) (force : Vec2) :
    (agentUpdate st walls bounds periodic params ped force).id = ped.id := rfl

/-- Retargeting destinations changes neither the observer data nor the
population data the vision computation reads. -/
theorem visionDistance_setDest (ped : Pedestrian) (d : Vec2) (g : ℕ → Vec2)
    (others : List Pedestrian) (walls : List Wall) (params : SimulationParams)
    (bounds : Option Bounds) (periodic : Bool) (dir : ℝ) :
    visionDistance (setDest ped d) (others.map fun p => setDest p (g p.id))
        walls params bounds periodic dir
      = visionDistance ped others walls params bounds periodic dir := by
  simp only [visionDistance]
  rw [List.foldl_map]
  rfl

theorem computeVision_setDest (ped : Pedestrian) (d : Vec2) (g : ℕ → Vec2)
    (others : List Pedestrian) (walls : List Wall) (params : SimulationParams)
    (bounds : Option Bounds) (periodic : Bool) (h : ℝ) :
    computeVision (setDest ped d) (others.map fun p => setDest p (g p.id))
        walls params bounds periodic (some h)
      = computeVision ped others walls params bounds periodic (some h) := by
  simp only [computeVision, Option.getD_some]
  congr 1
  apply List.map_congr_left
  intro alpha _
  exact visionDistance_setDest ped d g others walls params bounds periodic
    (h + alpha)

theorem pairForcesLoop_setDest (params : SimulationParams)
    (bounds : Option Bounds) (periodic : Bool) (p : Pedestrian) (d : Vec2)
    (g : ℕ → Vec2) (i : ℕ) (rest : List Pedestrian) (j : ℕ)
    (forces : List Vec2) :
    pairForcesLoop params bounds periodic (setDest p d) i
        (rest.map fun q => setDest q (g q.id)) j forces
      = pairForcesLoop params bounds periodic p i rest j forces := by
  simp only [pairForcesLoop]
  rw [List.foldl_map]
  rfl

theorem wallForcesLoop_setDest (params : SimulationParams) (p : Pedestrian)
    (d : Vec2) (i : ℕ) (walls : List Wall) (forces : List Vec2) :
    wallForcesLoop params (setDest p d) i walls forces
      = wallForcesLoop params p i walls forces := rfl

/-- One-step unfolding of the outer contact loop. -/
theorem contactOuterLoop_cons (walls : List Wall) (params : SimulationParams)
    (bounds : Option Bounds) (periodic : Bool) (pi' : Pedestrian)
    (rest : List Pedestrian) (i : ℕ) (forces : List Vec2) :
    contactOuterLoop walls params bounds periodic (pi' :: rest) i forces
      = if pi'.active then
          contactOuterLoop walls params bounds periodic rest (i + 1)
            (wallForcesLoop params pi' i walls
              (pairForcesLoop params bounds periodic pi' i rest (i + 1) forces))
        else contactOuterLoop walls params bounds periodic rest (i + 1) forces :=
  rfl

theorem contactOuterLoop_setDest (walls : List Wall) (params : SimulationParams)
    (bounds : Option Bounds) (periodic : Bool) (g : ℕ → Vec2) :
    ∀ (suffix : List Pedestrian) (i : ℕ) (forces : List Vec2),
      contactOuterLoop walls params bounds periodic
          (suffix.map fun q => setDest q (g q.id)) i forces
        = contactOuterLoop walls params bounds periodic suffix i forces := by
  intro suffix
  induction suffix with
  | nil => intro i forces; rfl
  | cons pi' rest ih =>
    intro i forces
    rw [List.map_cons, contactOuterLoop_cons, contactOuterLoop_cons,
      setDest_active, pairForcesLoop_setDest, wallForcesLoop_setDest]
    split_ifs
    · rw [ih]
    · rw [ih]

theorem computeContactForces_setDest (peds : List Pedestrian) (g : ℕ → Vec2)
    (walls : List Wall) (params : SimulationParams) (bounds : Option Bounds)
    (periodic : Bool) :
    computeContactForces (peds.map fun q => setDest q (g q.id)) walls params
        bounds periodic
      = computeContactForces peds walls params bounds periodic := by
  unfold computeContactForces
  rw [show (peds.map fun q => setDest q (g q.id)).map (fun _ => Vec2.zeroVec)
      = peds.map (fun _ => Vec2.zeroVec) by rw [List.map_map]; rfl]
  exact contactOuterLoop_setDest walls params bounds periodic g peds 0 _

theorem map_set_comm (f : Pedestrian → Pedestrian) :
    ∀ (l : List Pedestrian) (i : ℕ) (v : Pedestrian),
      (l.map f).set i (f v) = (l.set i v).map f := by
  intro l
  induction l with
  | nil => intro i v; rfl
  | cons a l' ih =>
    intro i v
    cases i with
    | zero => rfl
    | succ i' =>
      simp only [List.map_cons, List.set_cons_succ]
      rw [ih]

theorem agentUpdate_setDest (st : List Pedestrian) (g : ℕ → Vec2)
    (walls : List Wall) (bounds : Bounds) (params : SimulationParams)
    (ped : Pedestrian) (d : Vec2) (force : Vec2) :
    agentUpdate (st.map fun p => setDest p (g p.id)) walls bounds true params
        (setDest ped d) force
      = setDest (agentUpdate st walls bounds true params ped force) d := by
  have h1 : stepHeading true (setDest ped d) = stepHeading true ped := rfl
  simp only [agentUpdate, h1,
    computeVision_setDest ped d g st walls params (some bounds) true
      (stepHeading true ped)]
  rfl

/-- The per-index body of the `step` fold commutes with retargeting all
destinations by agent id. -/
theorem stepSet_commute (walls : List Wall) (bounds : Bounds)
    (params : SimulationParams) (g : ℕ → Vec2) (forces : List Vec2)
    (st : List Pedestrian) (i : ℕ) :
    (if ((st.map fun p => setDest p (g p.id)).getD i default).active then
        (st.map fun p => setDest p (g p.id)).set i
          (agentUpdate (st.map fun p => setDest p (g p.id)) walls bounds true
            params ((st.map fun p => setDest p (g p.id)).getD i default)
            (forces.getD i Vec2.zeroVec))
      else st.map fun p => setDest p (g p.id))
      = (if (st.getD i default).active then
          st.set i
            (agentUpdate st walls bounds true params (st.getD i default)
              (forces.getD i Vec2.zeroVec))
        else st).map fun p => setDest p (g p.id) := by
  by_cases hlt : i < st.length
  · have hgd : (st.map fun p => setDest p (g p.id)).getD i default
        = setDest (st.getD i default) (g ((st.getD i default).id)) := by
      rw [List.getD_eq_getElem?_getD, List.getD_eq_getElem?_getD,
        List.getElem?_map, List.getElem?_eq_getElem hlt]
      rfl
    rw [hgd, setDest_active]
    split_ifs with hact
    · rw [agentUpdate_setDest]
      have hid : g ((st.getD i default).id)
          = g ((agentUpdate st walls bounds true params (st.getD i default)
              (forces.getD i Vec2.zeroVec)).id) := by
        rw [agentUpdate_id]
      rw [hid, map_set_comm]
    · rfl
  · have hgd : (st.map fun p => setDest p (g p.id)).getD i default = default := by
      rw [List.getD_eq_getElem?_getD, List.getElem?_map,
        List.getElem?_eq_none (by simpa using not_lt.mp hlt)]
      rfl
    have hgd' : st.getD i default = default := by
      rw [List.getD_eq_getElem?_getD,
        List.getElem?_eq_none (not_lt.mp hlt)]
      rfl
    rw [hgd, hgd']
    have hfalse : ¬ ((default : Pedestrian).active = true) := Bool.false_ne_true
    rw [if_neg hfalse, if_neg hfalse]

theorem stepFold_setDest (walls : List Wall) (bounds : Bounds)
    (params : SimulationParams) (g : ℕ → Vec2) (forces : List Vec2) :
    ∀ (idxs : List ℕ) (st : List Pedestrian),
      idxs.foldl
        (fun (s : List Pedestrian) (i : ℕ) =>
          if (s.getD i default).active then
            s.set i
              (agentUpdate s walls bounds true params (s.getD i default)
                (forces.getD i Vec2.zeroVec))
          else s)
        (st.map fun p => setDest p (g p.id))
        = (idxs.foldl
            (fun (s : List Pedestrian) (i : ℕ) =>
              if (s.getD i default).active then
                s.set i
                  (agentUpdate s walls bounds true params (s.getD i default)
                    (forces.getD i Vec2.zeroVec))
              else s)
            st).map fun p => setDest p (g p.id) := by
  intro idxs
  induction idxs with
  | nil => intro st; rfl
  | cons i idxs' ih =>
    intro st
    rw [List.foldl_cons, List.foldl_cons,
      stepSet_commute walls bounds params g forces st i, ih]

/-- Claim C2: under a periodic boundary, (1) the whole step commutes with
arbitrarily retargeting every agent's destination (by agent id), because the
heading is fixed by the stored direction sign and never recomputed toward the
destination; (2) that heading is exactly `0` when `direction > 0` and `pi`
otherwise; (3) periodic vision equals non-periodic vision run on the
population whose positions are replaced by their nearest torus images, so the
minimum-image convention enters only through the collision geometry; and
(4) the sampled angle list never depends on the periodic flag, the bounds or
the heading. -/
theorem periodic_heading_destination_free :
    (∀ (peds : List Pedestrian) (env : Environment) (params : SimulationParams)
        (g : ℕ → Vec2), env.boundaryType = BoundaryType.periodic →
      stepPedestrians (peds.map fun p => setDest p (g p.id)) env params
        = (stepPedestrians peds env params).map fun p => setDest p (g p.id)) ∧
    (∀ ped : Pedestrian,
      stepHeading true ped = if ped.direction > 0 then 0 else Real.pi) ∧
    (∀ (ped : Pedestrian) (others : List Pedestrian) (walls : List Wall)
        (params : SimulationParams) (b : Bounds) (h : ℝ),
      computeVision ped others walls params (some b) true (some h)
        = computeVision ped (others.map (nearestImage ped b)) walls params none
            false (some h)) ∧
    (∀ (ped : Pedestrian) (others : List Pedestrian) (walls : List Wall)
        (params : SimulationParams) (b1 b2 : Option Bounds) (per1 per2 : Bool)
        (h1 h2 : Option ℝ),
      (computeVision ped others walls params b1 per1 h1).angles
        = (computeVision ped others walls params b2 per2 h2).angles) := by
  refine ⟨?_, fun ped => rfl, ?_, fun ped others walls params b1 b2 per1 per2 h1 h2 => rfl⟩
  · intro peds env params g hper
    have hb : decide (env.boundaryType = BoundaryType.periodic) = true := by
      rw [hper]
      rfl
    simp only [stepPedestrians, hb, List.length_map]
    rw [computeContactForces_setDest peds g env.walls params (some env.bounds) true]
    exact stepFold_setDest env.walls env.bounds params g _ _ peds
  · intro ped others walls params b h
    simp only [computeVision, Option.getD_some]
    congr 1
    apply List.map_congr_left
    intro alpha _
    simp only [visionDistance]
    rw [List.foldl_map]
    rfl

/-- Witness for C2: the hypotheses are satisfiable — the concrete periodic
environment and a retargeting of all destinations to the origin. -/
theorem periodic_heading_destination_free_witness :
    stepPedestrians ([pA, pB].map fun p => setDest p ((fun _ => Vec2.zeroVec) p.id))
        exEnv exParams
      = (stepPedestrians [pA, pB] exEnv exParams).map
          fun p => setDest p ((fun _ => Vec2.zeroVec) p.id) :=
  periodic_heading_destination_free.1 [pA, pB] exEnv exParams
    (fun _ => Vec2.zeroVec) rfl

theorem fromAngle_zero (s : ℝ) : Vec2.fromAngle (0 + 0) s = ⟨s, 0⟩ := by
  simp [Vec2.fromAngle]

theorem fromAngle_negpi (s : ℝ) : Vec2.fromAngle (0 + -Real.pi) s = ⟨-s, 0⟩ := by
  simp [Vec2.fromAngle, Real.cos_pi, Real.sin_pi]

theorem fromAngle_pi (s : ℝ) : Vec2.fromAngle (0 + Real.pi) s = ⟨-s, 0⟩ := by
  simp [Vec2.fromAngle, Real.cos_pi, Real.sin_pi]

theorem fromAngle_pi_negpi (s : ℝ) :
    Vec2.fromAngle (Real.pi + -Real.pi) s = ⟨s, 0⟩ := by
  rw [show Real.pi + -Real.pi = 0 + 0 by ring]
  exact fromAngle_zero s

theorem fromAngle_pi_zero (s : ℝ) :
    Vec2.fromAngle (Real.pi + 0) s = ⟨-s, 0⟩ := by
  rw [show Real.pi + (0 : ℝ) = 0 + Real.pi by ring]
  exact fromAngle_pi s

theorem fromAngle_pi_pi (s : ℝ) :
    Vec2.fromAngle (Real.pi + Real.pi) s = ⟨s, 0⟩ := by
  rw [show Real.pi + Real.pi = 2 * Real.pi by ring]
  simp [Vec2.fromAngle, Real.cos_two_pi, Real.sin_two_pi]

/-- The sampled angle list at the `phi = angularResolution = pi` parameters. -/
theorem anglesEx (ped : Pedestrian) (others : List Pedestrian)
    (walls : List Wall) (bounds : Option Bounds) (periodic : Bool)
    (heading : Option ℝ) :
    (computeVision ped others walls exParams bounds periodic heading).angles
      = [-Real.pi, 0, Real.pi] := by
  have hdiv : 2 * exParams.phi / exParams.angularResolution = (2 : ℝ) := by
    show 2 * Real.pi / Real.pi = 2
    rw [mul_div_assoc, div_self Real.pi_ne_zero, mul_one]
  have h2 : ⌈(2 : ℝ)⌉ = (2 : ℤ) := by norm_num
  have hceil : (⌈2 * exParams.phi / exParams.angularResolution⌉ + 1).toNat = 3 := by
    rw [hdiv, h2]
    rfl
  have hphi : exParams.phi = Real.pi := rfl
  have hres : exParams.angularResolution = Real.pi := rfl
  show (List.range (⌈2 * exParams.phi / exParams.angularResolution⌉ + 1).toNat).map
      (fun (i : ℕ) => -exParams.phi + (i : ℝ) * exParams.angularResolution)
      = [-Real.pi, 0, Real.pi]
  rw [hceil, show List.range 3 = [0, 1, 2] from rfl]
  simp only [List.map_cons, List.map_nil, List.cons.injEq, and_true, hphi, hres]
  refine ⟨by push_cast; ring, by push_cast; ring, by push_cast; ring⟩

theorem sqrt_four : Real.sqrt 4 = 2 := sqrt_eval (by norm_num) (by norm_num)

theorem sqrt_3625 : Real.sqrt (36 / 25) = 6 / 5 :=
  sqrt_eval (by norm_num) (by norm_num)

theorem sqrt_60516 : Real.sqrt 60516 = 246 :=
  sqrt_eval (by norm_num) (by norm_num)

theorem sqrt_64516 : Real.sqrt 64516 = 254 :=
  sqrt_eval (by norm_num) (by norm_num)

theorem sqrt_15625 : Real.sqrt 15625 = 125 :=
  sqrt_eval (by norm_num) (by norm_num)

theorem cdp1 : collisionDistancePedestrian pA pB ⟨-1, 0⟩ 10 = 10 := by
  simp only [collisionDistancePedestrian, pA, pB]
  norm_num [Vec2.length, sqrt_four]

theorem cdp2 : collisionDistancePedestrian pA pB ⟨1, 0⟩ 10 = 1 / 5 := by
  simp only [collisionDistancePedestrian, pA, pB]
  norm_num [Vec2.length, sqrt_four, Real.sqrt_one]

theorem cdp3 : collisionDistancePedestrian pB pA ⟨1, 0⟩ 10 = 10 := by
  simp only [collisionDistancePedestrian, pA, pB]
  norm_num [Vec2.length, sqrt_four]

theorem cdp4 : collisionDistancePedestrian pB pA ⟨-1, 0⟩ 10 = 1 / 5 := by
  simp only [collisionDistancePedestrian, pA, pB]
  norm_num [Vec2.length, sqrt_four, Real.sqrt_one]

theorem cdp5 : collisionDistancePedestrian pA pB1 ⟨-1, 0⟩ 10 = 10 := by
  simp only [collisionDistancePedestrian, pA, pB1]
  norm_num [Vec2.length, sqrt_60516, sqrt_15625]

theorem cdp6 : collisionDistancePedestrian pA pB1 ⟨1, 0⟩ 10 = 624 / 3175 := by
  simp only [collisionDistancePedestrian, pA, pB1]
  norm_num [Vec2.length, sqrt_64516, sqrt_15625, Real.sqrt_one]

theorem selectLoop_cons_none (d a f : ℝ) (rest : List (ℝ × ℝ)) (i b : ℕ) :
    selectLoop d ((a, f) :: rest) none i b
      = selectLoop d rest (some (dCost d a f)) (i + 1) i := rfl

theorem selectLoop_cons_some (d a f m : ℝ) (rest : List (ℝ × ℝ)) (i b : ℕ) :
    selectLoop d ((a, f) :: rest) (some m) i b
      = if dCost d a f < m then selectLoop d rest (some (dCost d a f)) (i + 1) i
        else selectLoop d rest (some m) (i + 1) b := rfl

theorem dCost_negpi : dCost 10 (-Real.pi) 10 = 400 := by
  simp only [dCost, zero_sub, neg_neg, Real.cos_pi]
  norm_num

theorem dCost_pi : dCost 10 Real.pi 10 = 400 := by
  simp only [dCost, zero_sub, Real.cos_neg, Real.cos_pi]
  norm_num

theorem dCost_zero (f : ℝ) : dCost 10 0 f = 100 + f * f - 20 * f := by
  simp only [dCost, zero_sub, neg_zero, Real.cos_zero]
  ring

/-- With the three sampled angles `-pi, 0, pi` and side distances `10`, the
scan settles on the middle index whenever its cost beats `400`. -/
theorem selectLoop_run (d : ℝ) (h1 : dCost 10 0 d < 400) :
    selectLoop 10 ([-Real.pi, 0, Real.pi].zip [10, d, 10]) none 0 0 = 1 := by
  rw [show ([-Real.pi, 0, Real.pi].zip [(10 : ℝ), d, 10])
      = [(-Real.pi, 10), (0, d), (Real.pi, 10)] from rfl]
  rw [selectLoop_cons_none, dCost_negpi, selectLoop_cons_some, if_pos h1,
    selectLoop_cons_some, dCost_pi, if_neg (not_lt.mpr (le_of_lt h1))]
  rfl

theorem selectDirection_run (d : ℝ) (h1 : dCost 10 0 d < 400) :
    selectDirection [-Real.pi, 0, Real.pi] [10, d, 10] exParams
      = ⟨0, d⟩ := by
  show (⟨([-Real.pi, 0, Real.pi] : List ℝ).getD
      (selectLoop exParams.dMax ([-Real.pi, 0, Real.pi].zip [10, d, 10]) none 0 0) 0,
    ([10, d, 10] : List ℝ).getD
      (selectLoop exParams.dMax ([-Real.pi, 0, Real.pi].zip [10, d, 10]) none 0 0) 0⟩ :
      DirectionResult) = ⟨0, d⟩
  rw [show exParams.dMax = 10 from rfl, selectLoop_run d h1]
  rfl

theorem VisionResult.ext' (v w : VisionResult) (h1 : v.angles = w.angles)
    (h2 : v.distances = w.distances) : v = w := by
  cases v
  cases w
  simp only [VisionResult.mk.injEq]
  exact ⟨h1, h2⟩

theorem periodicImage_AB :
    Vec2.add pA.position (periodicDisplacement pA.position pB.position exBounds)
      = pB.position := by
  simp only [pA, pB, exBounds, periodicDisplacement, Vec2.add]
  norm_num

theorem periodicImage_BA :
    Vec2.add pB.position (periodicDisplacement pB.position pA.position exBounds)
      = pA.position := by
  simp only [pA, pB, exBounds, periodicDisplacement, Vec2.add]
  norm_num

theorem periodicImage_AB1 :
    Vec2.add pA.position (periodicDisplacement pA.position pB1.position exBounds)
      = pB1.position := by
  simp only [pA, pB1, exBounds, periodicDisplacement, Vec2.add]
  norm_num

theorem visionDistanceA (alpha : ℝ) (c : ℝ)
    (hfa : Vec2.fromAngle (0 + alpha) pA.desiredSpeed = ⟨c, 0⟩)
    (r : ℝ) (hcdp : collisionDistancePedestrian pA pB ⟨c, 0⟩ 10 = r)
    (hr : min 10 r = r) :
    visionDistance pA [pA, pB] [] exParams (some exBounds) true (0 + alpha)
      = r := by
  simp only [visionDistance, List.foldl_cons, List.foldl_nil, hfa,
    eq_self_iff_true, true_or, if_true]
  rw [if_neg (by simp [pA, pB]), periodicImage_AB]
  have heta : Pedestrian.mk pB.id pB.position pB.velocity pB.mass pB.radius
      pB.desiredSpeed pB.destination pB.direction pB.active = pB := rfl
  rw [heta]
  rw [show exParams.dMax = 10 from rfl, hcdp, hr]

theorem visionA :
    computeVision pA [pA, pB] [] exParams (some exBounds) true (some 0)
      = ⟨[-Real.pi, 0, Real.pi], [10, 1 / 5, 10]⟩ := by
  refine VisionResult.ext' _ _ (anglesEx pA [pA, pB] [] (some exBounds) true (some 0)) ?_
  have hmap : (computeVision pA [pA, pB] [] exParams (some exBounds) true
      (some 0)).distances
      = ((computeVision pA [pA, pB] [] exParams (some exBounds) true
          (some 0)).angles).map
        (fun alpha =>
          visionDistance pA [pA, pB] [] exParams (some exBounds) true
            (((some (0 : ℝ)).getD
                (Vec2.angle (Vec2.sub pA.destination pA.position))) + alpha)) := rfl
  rw [hmap, anglesEx pA [pA, pB] [] (some exBounds) true (some 0)]
  simp only [Option.getD_some, List.map_cons, List.map_nil]
  rw [visionDistanceA (-Real.pi) (-1) (by
      rw [show pA.desiredSpeed = 1 from rfl, fromAngle_negpi]) 10 cdp1 (by norm_num),
    visionDistanceA 0 1 (by
      rw [show pA.desiredSpeed = 1 from rfl, fromAngle_zero]) (1 / 5) cdp2
      (by norm_num),
    visionDistanceA Real.pi (-1) (by
      rw [show pA.desiredSpeed = 1 from rfl, fromAngle_pi]) 10 cdp1 (by norm_num)]

/-- Witness for C3: the bounds hold for the middle sampled distance of a
concrete periodic two-agent configuration with `dMax = 10`. -/
theorem computeVision_bounds_witness :
    0 < exParams.dMax
    ∧ 0 ≤ (computeVision pA [pA, pB] [] exParams (some exBounds) true
        (some 0)).distances.getD 1 0
    ∧ (computeVision pA [pA, pB] [] exParams (some exBounds) true
        (some 0)).distances.getD 1 0 ≤ exParams.dMax := by
  have hmem : (computeVision pA [pA, pB] [] exParams (some exBounds) true
      (some 0)).distances.getD 1 0
      ∈ (computeVision pA [pA, pB] [] exParams (some exBounds) true
        (some 0)).distances := by
    rw [visionA]
    norm_num [List.getD]
  have h := computeVision_bounds pA [pA, pB] [] exParams (some exBounds) true
    (some 0) (by norm_num [exParams]) _ hmem
  exact ⟨by norm_num [exParams], h.1, h.2⟩

theorem visionDistanceB (alpha c : ℝ)
    (hfa : Vec2.fromAngle (Real.pi + alpha) pB.desiredSpeed = ⟨c, 0⟩)
    (r : ℝ) (hcdp : collisionDistancePedestrian pB pA ⟨c, 0⟩ 10 = r)
    (hr : min 10 r = r) :
    visionDistance pB [pB, pA] [] exParams (some exBounds) true (Real.pi + alpha)
      = r := by
  simp only [visionDistance, List.foldl_cons, List.foldl_nil, hfa,
    eq_self_iff_true, true_or, if_true]
  rw [if_neg (by simp [pA, pB]), periodicImage_BA]
  have heta : Pedestrian.mk pA.id pA.position pA.velocity pA.mass pA.radius
      pA.desiredSpeed pA.destination pA.direction pA.active = pA := rfl
  rw [heta]
  rw [show exParams.dMax = 10 from rfl, hcdp, hr]

theorem visionB1 :
    computeVision pB [pB, pA] [] exParams (some exBounds) true (some Real.pi)
      = ⟨[-Real.pi, 0, Real.pi], [10, 1 / 5, 10]⟩ := by
  refine VisionResult.ext' _ _
    (anglesEx pB [pB, pA] [] (some exBounds) true (some Real.pi)) ?_
  have hmap : (computeVision pB [pB, pA] [] exParams (some exBounds) true
      (some Real.pi)).distances
      = ((computeVision pB [pB, pA] [] exParams (some exBounds) true
          (some Real.pi)).angles).map
        (fun alpha =>
          visionDistance pB [pB, pA] [] exParams (some exBounds) true
            (((some Real.pi).getD
                (Vec2.angle (Vec2.sub pB.destination pB.position))) + alpha)) := rfl
  rw [hmap, anglesEx pB [pB, pA] [] (some exBounds) true (some Real.pi)]
  simp only [Option.getD_some, List.map_cons, List.map_nil]
  rw [visionDistanceB (-Real.pi) 1 (by
      rw [show pB.desiredSpeed = 1 from rfl, fromAngle_pi_negpi]) 10 cdp3
      (by norm_num),
    visionDistanceB 0 (-1) (by
      rw [show pB.desiredSpeed = 1 from rfl, fromAngle_pi_zero]) (1 / 5) cdp4
      (by norm_num),
    visionDistanceB Real.pi 1 (by
      rw [show pB.desiredSpeed = 1 from rfl, fromAngle_pi_pi]) 10 cdp3
      (by norm_num)]

theorem visionDistanceA2 (alpha c : ℝ)
    (hfa : Vec2.fromAngle (0 + alpha) pA.desiredSpeed = ⟨c, 0⟩)
    (r : ℝ) (hcdp : collisionDistancePedestrian pA pB1 ⟨c, 0⟩ 10 = r)
    (hr : min 10 r = r) :
    visionDistance pA [pB1, pA] [] exParams (some exBounds) true (0 + alpha)
      = r := by
  simp only [visionDistance, List.foldl_cons, List.foldl_nil, hfa,
    eq_self_iff_true, true_or, if_true]
  rw [if_neg (by simp [pA, pB1]), periodicImage_AB1]
  have heta : Pedestrian.mk pB1.id pB1.position pB1.velocity pB1.mass pB1.radius
      pB1.desiredSpeed pB1.destination pB1.direction pB1.active = pB1 := rfl
  rw [heta]
  rw [show exParams.dMax = 10 from rfl, hcdp, hr]

theorem visionB2 :
    computeVision pA [pB1, pA] [] exParams (some exBounds) true (some 0)
      = ⟨[-Real.pi, 0, Real.pi], [10, 624 / 3175, 10]⟩ := by
  refine VisionResult.ext' _ _
    (anglesEx pA [pB1, pA] [] (some exBounds) true (some 0)) ?_
  have hmap : (computeVision pA [pB1, pA] [] exParams (some exBounds) true
      (some 0)).distances
      = ((computeVision pA [pB1, pA] [] exParams (some exBounds) true
          (some 0)).angles).map
        (fun alpha =>
          visionDistance pA [pB1, pA] [] exParams (some exBounds) true
            (((some (0 : ℝ)).getD
                (Vec2.angle (Vec2.sub pA.destination pA.position))) + alpha)) := rfl
  rw [hmap, anglesEx pA [pB1, pA] [] (some exBounds) true (some 0)]
  simp only [Option.getD_some, List.map_cons, List.map_nil]
  rw [visionDistanceA2 (-Real.pi) (-1) (by
      rw [show pA.desiredSpeed = 1 from rfl, fromAngle_negpi]) 10 cdp5
      (by norm_num),
    visionDistanceA2 0 1 (by
      rw [show pA.desiredSpeed = 1 from rfl, fromAngle_zero]) (624 / 3175) cdp6
      (by norm_num),
    visionDistanceA2 Real.pi (-1) (by
      rw [show pA.desiredSpeed = 1 from rfl, fromAngle_pi]) 10 cdp5
      (by norm_num)]

theorem wrapValue_fix (x mn mx : ℝ) (h1 : mn ≤ x) (h2 : x < mx) :
    wrapValue x mn mx = x := by
  have hr : 0 < mx - mn := by linarith
  simp only [wrapValue]
  rw [if_neg (by linarith)]
  have hfl : ⌊(x - mn) / (mx - mn)⌋ = 0 := by
    rw [Int.floor_eq_zero_iff]
    exact ⟨div_nonneg (by linarith) hr.le, by rw [div_lt_one hr]; linarith⟩
  rw [hfl]
  norm_num

theorem wrapPosition_ex (p : Vec2) (h1 : -10 ≤ p.x) (h2 : p.x < 10)
    (h3 : -10 ≤ p.y) (h4 : p.y < 10) : wrapPosition p exBounds = p := by
  show (⟨wrapValue p.x exBounds.xMin exBounds.xMax,
    wrapValue p.y exBounds.yMin exBounds.yMax⟩ : Vec2) = p
  rw [show exBounds.xMin = -10 from rfl, show exBounds.xMax = 10 from rfl,
    show exBounds.yMin = -10 from rfl, show exBounds.yMax = 10 from rfl,
    wrapValue_fix _ _ _ h1 h2, wrapValue_fix _ _ _ h3 h4]

theorem computeDesiredVelocity_run (v d : ℝ) (h1 : dCost 10 0 d < 400) :
    computeDesiredVelocity v [-Real.pi, 0, Real.pi] [10, d, 10] exParams
      = (0, min v (d / (1 / 2))) := by
  unfold computeDesiredVelocity
  rw [selectDirection_run d h1]
  rfl

theorem updA :
    agentUpdate [pA, pB] [] exBounds true exParams pA Vec2.zeroVec = pA1 := by
  have hh : stepHeading true pA = 0 := by
    norm_num [stepHeading, pA]
  simp only [agentUpdate, hh]
  rw [visionA]
  dsimp only
  rw [show pA.desiredSpeed = 1 from rfl]
  rw [computeDesiredVelocity_run 1 (1 / 5) (by rw [dCost_zero]; norm_num)]
  dsimp only
  rw [show min (1 : ℝ) (1 / 5 / (1 / 2)) = 2 / 5 by norm_num, fromAngle_zero]
  have hP : wrapPosition ⟨1 / 3125, (0 : ℝ)⟩ exBounds = ⟨1 / 3125, 0⟩ :=
    wrapPosition_ex _ (by norm_num) (by norm_num) (by norm_num) (by norm_num)
  simp only [pA, exParams, Vec2.sub, Vec2.scale, Vec2.add, Vec2.zeroVec]
  norm_num
  rw [hP]
  show Pedestrian.mk 0 ⟨1 / 3125, 0⟩ ⟨2 / 125, 0⟩ 160 (1 / 2) 1 ⟨9, 0⟩ 1 true = pA1
  rfl

theorem updB1 :
    agentUpdate [pB, pA] [] exBounds true exParams pB Vec2.zeroVec = pB1 := by
  have hh : stepHeading true pB = Real.pi := by
    norm_num [stepHeading, pB]
  simp only [agentUpdate, hh]
  rw [visionB1]
  dsimp only
  rw [show pB.desiredSpeed = 1 from rfl]
  rw [computeDesiredVelocity_run 1 (1 / 5) (by rw [dCost_zero]; norm_num)]
  dsimp only
  rw [show min (1 : ℝ) (1 / 5 / (1 / 2)) = 2 / 5 by norm_num, fromAngle_pi_zero]
  have hP : wrapPosition ⟨3749 / 3125, (0 : ℝ)⟩ exBounds = ⟨3749 / 3125, 0⟩ :=
    wrapPosition_ex _ (by norm_num) (by norm_num) (by norm_num) (by norm_num)
  simp only [pB, exParams, Vec2.sub, Vec2.scale, Vec2.add, Vec2.zeroVec]
  norm_num
  rw [hP]
  show Pedestrian.mk 1 ⟨3749 / 3125, 0⟩ ⟨-(2 / 125), 0⟩ 160 (1 / 2) 1 ⟨-9, 0⟩
    (-1) true = pB1
  rfl

theorem updB2 :
    agentUpdate [pB1, pA] [] exBounds true exParams pA Vec2.zeroVec = pA2 := by
  have hh : stepHeading true pA = 0 := by
    norm_num [stepHeading, pA]
  simp only [agentUpdate, hh]
  rw [visionB2]
  dsimp only
  rw [show pA.desiredSpeed = 1 from rfl]
  rw [computeDesiredVelocity_run 1 (624 / 3175) (by rw [dCost_zero]; norm_num)]
  dsimp only
  rw [show min (1 : ℝ) (624 / 3175 / (1 / 2)) = 1248 / 3175 by norm_num,
    fromAngle_zero]
  have hP : wrapPosition ⟨624 / 1984375, (0 : ℝ)⟩ exBounds = ⟨624 / 1984375, 0⟩ :=
    wrapPosition_ex _ (by norm_num) (by norm_num) (by norm_num) (by norm_num)
  simp only [pA, exParams, Vec2.sub, Vec2.scale, Vec2.add, Vec2.zeroVec]
  norm_num
  rw [hP]
  show Pedestrian.mk 0 ⟨624 / 1984375, 0⟩ ⟨1248 / 79375, 0⟩ 160 (1 / 2) 1 ⟨9, 0⟩
    1 true = pA2
  rfl

theorem forcesAB :
    computeContactForces [pA, pB] [] exParams (some exBounds) true
      = [Vec2.zeroVec, Vec2.zeroVec] := by
  have hcd : Vec2.length (contactDelta true (some exBounds) pA pB) = 6 / 5 := by
    have h1 : contactDelta true (some exBounds) pA pB = ⟨-(6 / 5), 0⟩ := by
      simp only [contactDelta, periodicDisplacement, pA, pB, exBounds]
      norm_num
    rw [h1]
    show Real.sqrt (-(6 / 5) * -(6 / 5) + 0 * 0) = 6 / 5
    rw [show (-(6 / 5) * -(6 / 5) + 0 * 0 : ℝ) = 36 / 25 by norm_num, sqrt_3625]
  show contactOuterLoop [] exParams (some exBounds) true [pA, pB] 0
      [Vec2.zeroVec, Vec2.zeroVec] = [Vec2.zeroVec, Vec2.zeroVec]
  rw [contactOuterLoop_cons, if_pos (show pA.active = true from rfl),
    pairForcesLoop_cons, if_pos (show pB.active = true from rfl), hcd,
    if_neg (show ¬ (pA.radius + pB.radius - (6 / 5 : ℝ) > 0) from by
      norm_num [pA, pB])]
  rw [contactOuterLoop_cons, if_pos (show pB.active = true from rfl)]
  rfl

theorem forcesBA :
    computeContactForces [pB, pA] [] exParams (some exBounds) true
      = [Vec2.zeroVec, Vec2.zeroVec] := by
  have hcd : Vec2.length (contactDelta true (some exBounds) pB pA) = 6 / 5 := by
    have h1 : contactDelta true (some exBounds) pB pA = ⟨6 / 5, 0⟩ := by
      simp only [contactDelta, periodicDisplacement, pA, pB, exBounds]
      norm_num
    rw [h1]
    show Real.sqrt (6 / 5 * (6 / 5) + 0 * 0) = 6 / 5
    rw [show (6 / 5 * (6 / 5) + 0 * 0 : ℝ) = 36 / 25 by norm_num, sqrt_3625]
  show contactOuterLoop [] exParams (some exBounds) true [pB, pA] 0
      [Vec2.zeroVec, Vec2.zeroVec] = [Vec2.zeroVec, Vec2.zeroVec]
  rw [contactOuterLoop_cons, if_pos (show pB.active = true from rfl),
    pairForcesLoop_cons, if_pos (show pA.active = true from rfl), hcd,
    if_neg (show ¬ (pB.radius + pA.radius - (6 / 5 : ℝ) > 0) from by
      norm_num [pA, pB])]
  rw [contactOuterLoop_cons, if_pos (show pA.active = true from rfl)]
  rfl

theorem stepA_getD :
    (stepPedestrians [pA, pB] exEnv exParams).getD 0 default = pA1 := by
  simp only [stepPedestrians]
  rw [show (decide (exEnv.boundaryType = BoundaryType.periodic)) = true from rfl,
    show exEnv.walls = ([] : List Wall) from rfl,
    show exEnv.bounds = exBounds from rfl, forcesAB,
    show List.range (List.length [pA, pB]) = [0, 1] from rfl,
    List.foldl_cons,
    show ([pA, pB].getD 0 default) = pA from rfl,
    if_pos (show pA.active = true from rfl),
    show ([Vec2.zeroVec, Vec2.zeroVec] : List Vec2).getD 0 Vec2.zeroVec
      = Vec2.zeroVec from rfl,
    show ([pA, pB].set 0 (agentUpdate [pA, pB] [] exBounds true exParams pA
        Vec2.zeroVec))
      = [agentUpdate [pA, pB] [] exBounds true exParams pA Vec2.zeroVec, pB]
      from rfl,
    updA, List.foldl_cons, List.foldl_nil,
    show ([pA1, pB].getD 1 default) = pB from rfl,
    if_pos (show pB.active = true from rfl)]
  rw [show ∀ X, ([pA1, pB].set 1 X) = [pA1, X] from fun X => rfl]
  rfl

theorem stepB_getD :
    (stepPedestrians [pB, pA] exEnv exParams).getD 1 default = pA2 := by
  simp only [stepPedestrians]
  rw [show (decide (exEnv.boundaryType = BoundaryType.periodic)) = true from rfl,
    show exEnv.walls = ([] : List Wall) from rfl,
    show exEnv.bounds = exBounds from rfl, forcesBA,
    show List.range (List.length [pB, pA]) = [0, 1] from rfl,
    List.foldl_cons,
    show ([pB, pA].getD 0 default) = pB from rfl,
    if_pos (show pB.active = true from rfl),
    show ([Vec2.zeroVec, Vec2.zeroVec] : List Vec2).getD 0 Vec2.zeroVec
      = Vec2.zeroVec from rfl,
    show ([pB, pA].set 0 (agentUpdate [pB, pA] [] exBounds true exParams pB
        Vec2.zeroVec))
      = [agentUpdate [pB, pA] [] exBounds true exParams pB Vec2.zeroVec, pA]
      from rfl,
    updB1, List.foldl_cons, List.foldl_nil,
    show ([pB1, pA].getD 1 default) = pA from rfl,
    if_pos (show pA.active = true from rfl),
    show ([Vec2.zeroVec, Vec2.zeroVec] : List Vec2).getD 1 Vec2.zeroVec
      = Vec2.zeroVec from rfl,
    show ([pB1, pA].set 1 (agentUpdate [pB1, pA] [] exBounds true exParams pA
        Vec2.zeroVec))
      = [pB1, agentUpdate [pB1, pA] [] exBounds true exParams pA Vec2.zeroVec]
      from rfl,
    updB2]
  rfl

/-- Claim C1 (counterexample): stepping the two-agent list `[pA, pB]` gives
`pA` the post-step velocity `0.016`, while stepping the swapped list
`[pB, pA]` gives `pA` (now processed second, its vision reading `pB`'s
already-updated state) the different velocity `1248/79375`; stepping the
permuted list therefore does not yield the permuted result, so per-step
results depend on the order of the pedestrian list. -/
theorem step_order_dependent :
    ((stepPedestrians [pA, pB] exEnv exParams).getD 0 default).velocity.x
      = 2 / 125
    ∧ ((stepPedestrians [pB, pA] exEnv exParams).getD 1 default).velocity.x
      = 1248 / 79375
    ∧ ((2 : ℝ) / 125 ≠ 1248 / 79375) := by
  refine ⟨?_, ?_, by norm_num⟩
  · rw [stepA_getD]
    rfl
  · rw [stepB_getD]
    rfl

theorem foldStep_getD_zero (u : List Pedestrian → ℕ → Pedestrian) :
    ∀ (idxs : List ℕ), (∀ i ∈ idxs, i ≠ 0) → ∀ (st : List Pedestrian),
      ((idxs.foldl
          (fun s i =>
            if (s.getD i default).active = true then s.set i (u s i) else s)
          st).getD 0 default)
        = st.getD 0 default := by
  intro idxs
  induction idxs with
  | nil => intro _ st; rfl
  | cons i idxs' ih =>
    intro hmem st
    rw [List.foldl_cons, ih (fun j hj => hmem j (List.mem_cons_of_mem i hj))]
    by_cases hact : (st.getD i default).active = true
    · rw [if_pos hact,
        getD_set_ne st i 0 _ default (hmem i (List.mem_cons_self i idxs'))]
    · rw [if_neg hact]

/-- Claim C1 (amended): the contact forces used by `step` are computed once
from the pre-step pedestrian list, before any agent is advanced, and the
first-processed agent's update — vision included — reads only pre-step state;
later agents, however, read the partially updated array, so order
independence fails (see the counterexample). -/
theorem stepPedestrians_head_prestep (p : Pedestrian) (rest : List Pedestrian)
    (env : Environment) (params : SimulationParams) (hact : p.active = true) :
    (stepPedestrians (p :: rest) env params).getD 0 default
      = agentUpdate (p :: rest) env.walls env.bounds
          (decide (env.boundaryType = BoundaryType.periodic)) params p
          ((computeContactForces (p :: rest) env.walls params (some env.bounds)
              (decide (env.boundaryType = BoundaryType.periodic))).getD 0
            Vec2.zeroVec) := by
  simp only [stepPedestrians]
  rw [show List.length (p :: rest) = rest.length + 1 from rfl,
    List.range_succ_eq_map, List.foldl_cons,
    show ((p :: rest).getD 0 default) = p from rfl, if_pos hact,
    List.set_cons_zero]
  rw [foldStep_getD_zero _ _ (fun i hi => by
    obtain ⟨x, _, rfl⟩ := List.mem_map.mp hi
    exact Nat.succ_ne_zero x)]
  rfl

/-- Witness for C1 (amended): a concrete singleton population. -/
theorem stepPedestrians_head_prestep_witness :
    (stepPedestrians [pA] exEnv exParams).getD 0 default
      = agentUpdate [pA] exEnv.walls exEnv.bounds
          (decide (exEnv.boundaryType = BoundaryType.periodic)) exParams pA
          ((computeContactForces [pA] exEnv.walls exParams (some exEnv.bounds)
              (decide (exEnv.boundaryType = BoundaryType.periodic))).getD 0
            Vec2.zeroVec) :=
  stepPedestrians_head_prestep pA [] exEnv exParams rfl

theorem areaLoop_succ (count : ℕ) (bounds : Bounds)
    (destFn : Vec2 → ℕ → Vec2) (opts : AreaOptions) (σ : ℕ → ℝ)
    (fuel k nid : ℕ) (acc : List Pedestrian) :
    areaLoop count bounds destFn opts σ (fuel + 1) k nid acc
      = if acc.length < count then
          areaLoop count bounds destFn opts σ fuel
            (areaAttempt bounds destFn opts σ k nid acc).1
            (areaAttempt bounds destFn opts σ k nid acc).2.1
            (areaAttempt bounds destFn opts σ k nid acc).2.2
        else acc := rfl

theorem randomNormal_zero (mean std : ℝ) : randomNormal mean std 0 0 = mean := by
  simp [randomNormal, Real.log_zero]

theorem areaAttempt1 :
    areaAttempt c10Bounds (fun _ _ => (⟨0, 0⟩ : Vec2)) ⟨none, none, none, none⟩
        sigmaC10 0 0 [] = (6, 1, [c10p1]) := by
  simp only [areaAttempt, sigmaC10, createPedestrian, randomNormal_zero]
  norm_num [Real.log_zero, c10p1, c10Bounds, Vec2.zeroVec, Prod.ext_iff,
    Pedestrian.mk.injEq, Vec2.mk.injEq, randomNormal]

theorem areaAttempt2 :
    areaAttempt c10Bounds (fun _ _ => (⟨0, 0⟩ : Vec2)) ⟨none, none, none, none⟩
        sigmaC10 6 1 [c10p1] = (12, 2, [c10p1, c10p2]) := by
  have hd : Vec2.distance
      (⟨c10Bounds.xMin + sigmaC10 6 * (c10Bounds.xMax - c10Bounds.xMin),
        c10Bounds.yMin + sigmaC10 (6 + 1) * (c10Bounds.yMax - c10Bounds.yMin)⟩
        : Vec2) c10p1.position = 1 / 2 := by
    apply sqrt_eval
    · norm_num
    · norm_num [Vec2.sub, c10p1, c10Bounds, sigmaC10]
  simp only [areaAttempt, createPedestrian]
  split_ifs with h
  · exfalso
    obtain ⟨other, hmem, hlt⟩ := h
    simp only [List.mem_singleton] at hmem
    subst hmem
    rw [hd] at hlt
    norm_num [c10p1, sigmaC10] at hlt
  · norm_num [c10p1, c10p2, c10Bounds, sigmaC10, Vec2.zeroVec, Prod.ext_iff,
      Pedestrian.mk.injEq, Vec2.mk.injEq, randomNormal, Real.log_zero]

theorem c10_run :
    createPedestriansInArea 2 c10Bounds (fun _ _ => ⟨0, 0⟩)
        ⟨none, none, none, none⟩ sigmaC10 0 = [c10p1, c10p2] := by
  show areaLoop 2 c10Bounds (fun _ _ => ⟨0, 0⟩) ⟨none, none, none, none⟩
    sigmaC10 (2 * 100) 0 0 [] = _
  rw [show (2 * 100 : ℕ) = 199 + 1 from by norm_num, areaLoop_succ,
    if_pos (by simp), areaAttempt1]
  dsimp only
  rw [show (199 : ℕ) = 198 + 1 from by norm_num, areaLoop_succ,
    if_pos (by simp), areaAttempt2]
  dsimp only
  rw [show (198 : ℕ) = 197 + 1 from by norm_num, areaLoop_succ,
    if_neg (by simp)]

/-- Claim C10 (failing run): with the explicit random stream `sigmaC10`,
`createPedestriansInArea` returns two pedestrians whose centre distance is
`0.5`, yet whose radii sum plus the `0.05` margin is `0.5375`: the overlap
check measured the second candidate with a freshly drawn check mass (radius
`3/16`), but `createPedestrian` re-sampled the actual mass (radius `3/10`),
so the returned pair violates the claimed separation. -/
theorem createPedestriansInArea_overlap_bug :
    createPedestriansInArea 2 c10Bounds (fun _ _ => ⟨0, 0⟩)
        ⟨none, none, none, none⟩ sigmaC10 0 = [c10p1, c10p2]
    ∧ Vec2.distance c10p2.position c10p1.position = 1 / 2
    ∧ c10p1.radius + c10p2.radius + 0.05 = 0.5375
    ∧ ¬ (c10p1.radius + c10p2.radius + 0.05
        ≤ Vec2.distance c10p2.position c10p1.position) := by
  have hdist : Vec2.distance c10p2.position c10p1.position = 1 / 2 := by
    apply sqrt_eval
    · norm_num
    · norm_num [Vec2.sub, c10p1, c10p2]
  refine ⟨c10_run, hdist, by norm_num [c10p1, c10p2], ?_⟩
  rw [hdist]
  norm_num [c10p1, c10p2]

end Theorems

end PedSim
